import Mathlib

/-!
Shallow embedding of the editing core of the `godit` terminal text editor
(files `buffer.go` and `view.go`): the line store, streaming load/save,
the byte/character/visual location model, the action-group undo/redo
history and the viewport (view) logic, together with theorems checking the
natural-language specification against these definitions.

Modelling conventions:
* Bytes are `Nat` values; a line is a `List Nat`; the line store is a
  `List (List Nat)` kept nonempty by construction.  Go pointers into the
  doubly linked line list are represented by 1-based line numbers, which
  is the stable identity the rest of the model uses.
* All Go `int` fields are embedded as `Int` so negative intermediate
  values (for example the `-1` byte-offset sentinel of `cursor_location`)
  behave exactly as in the source.
* Functions from repository files that are not part of the two shown
  sources (`cursor_location` methods, `action`/`action_group` methods,
  the geometry constants) are modelled from the specification text and
  carry a doc comment starting with `Modelled from the spec:`.
-/

abbrev Byte := Nat

/-- Modelled from the spec: the fixed tab-stop width (`tabstop_length` is
defined outside the shown sources); the spec's tab/visual arithmetic uses
width 8. -/
def tabstop_length : Int := 8

/-- Modelled from the spec: the configured vertical scroll margin
(`view_vertical_threshold` is defined outside the shown sources); the
spec's scroll-margin property uses margin 5. -/
def view_vertical_threshold : Int := 5

/-- Modelled from the spec: the configured horizontal scroll margin
(`view_horizontal_threshold` is defined outside the shown sources); the
spec fixes no number, any nonnegative constant works for the claims. -/
def view_horizontal_threshold : Int := 5

/-- Is `b` a UTF-8 continuation byte (`0x80 ≤ b < 0xC0`)? -/
def is_cont_byte (b : Byte) : Bool := 128 ≤ b && b < 192

/-- Embedding of Go's `utf8.DecodeRune` on a byte list: returns the first
rune and its encoded length.  Invalid sequences yield the replacement
rune with length 1, the empty list yields length 0, as in Go. -/
def utf8DecodeRune : List Byte → Nat × Nat
  | [] => (65533, 0)
  | b :: rest =>
    if b < 128 then (b, 1)
    else if b < 192 then (65533, 1)
    else if b < 224 then
      match rest with
      | c :: _ =>
        if is_cont_byte c then ((b - 192) * 64 + (c - 128), 2) else (65533, 1)
      | _ => (65533, 1)
    else if b < 240 then
      match rest with
      | c :: d :: _ =>
        if is_cont_byte c && is_cont_byte d then
          (((b - 224) * 64 + (c - 128)) * 64 + (d - 128), 3)
        else (65533, 1)
      | _ => (65533, 1)
    else
      match rest with
      | c :: d :: e :: _ =>
        if is_cont_byte c && is_cont_byte d && is_cont_byte e then
          ((((b - 240) * 64 + (c - 128)) * 64 + (d - 128)) * 64 + (e - 128), 4)
        else (65533, 1)
      | _ => (65533, 1)

theorem utf8DecodeRune_len_pos (l : List Byte) (h : l ≠ []) :
    1 ≤ (utf8DecodeRune l).2 := by
  match l with
  | [] => exact absurd rfl h
  | b :: rest =>
    simp only [utf8DecodeRune]
    repeat' split
    all_goals simp

theorem utf8DecodeRune_drop_lt (l : List Byte) (h : l ≠ []) :
    (l.drop (utf8DecodeRune l).2).length < l.length := by
  have h1 := utf8DecodeRune_len_pos l h
  have h2 : 0 < l.length := List.length_pos.mpr h
  simp only [List.length_drop]
  omega

/-- Embedding of Go's `utf8.EncodeRune` (standard UTF-8 encoding). -/
def utf8EncodeRune (r : Nat) : List Byte :=
  if r < 128 then [r]
  else if r < 2048 then [192 + r / 64, 128 + r % 64]
  else if r < 65536 then [224 + r / 4096, 128 + r / 64 % 64, 128 + r % 64]
  else [240 + r / 262144, 128 + r / 4096 % 64, 128 + r / 64 % 64, 128 + r % 64]

/-- Loop of `runeSeq` below; the fuel argument only bounds the number of
iterations (each consumes at least one byte), making the recursion
structural so that terms reduce inside the kernel. -/
def runeSeq_loop : Nat → List Byte → List (Nat × Nat)
  | _, [] => []
  | 0, _ :: _ => []
  | fuel + 1, b :: rest =>
    let p := utf8DecodeRune (b :: rest)
    p :: runeSeq_loop fuel ((b :: rest).drop p.2)

/-- The sequence of (rune, byte-length) pairs obtained by repeatedly
decoding the first rune of a byte list, as every walk over line data in
the source does. -/
def runeSeq (l : List Byte) : List (Nat × Nat) := runeSeq_loop l.length l

/-- Visual width of one rune when the current visual offset is `vo`:
a tab advances to the next multiple of the tab-stop width, every other
rune costs one cell (the rule of `line.find_closest_offsets`). -/
def rune_vodif (r : Nat) (vo : Int) : Int :=
  if r = 9 then tabstop_length - vo % tabstop_length else 1

/-- Worker loop of `line.find_closest_offsets` (`buffer.go:23-45`):
walks the byte list decoding runes, accumulating byte offset `bo`,
character offset `co` and visual offset `vo`, stopping before the rune
that would push the visual offset past `voffset`.  The fuel argument
only bounds the number of iterations (each consumes at least one byte). -/
def fco_loop : Nat → List Byte → Int → Int → Int → Int → Int × Int × Int
  | _, [], bo, co, vo, _ => (bo, co, vo)
  | 0, _ :: _, bo, co, vo, _ => (bo, co, vo)
  | fuel + 1, b :: rest, bo, co, vo, voffset =>
    let p := utf8DecodeRune (b :: rest)
    let vodif := rune_vodif p.1 vo
    if vo + vodif > voffset then (bo, co, vo)
    else fco_loop fuel ((b :: rest).drop p.2) (bo + p.2) (co + 1) (vo + vodif) voffset

/-- `line.find_closest_offsets` (`buffer.go:23-45`): the (byte offset,
character offset, visual offset) triple of the closest position of the
line whose visual offset does not exceed `voffset`. -/
def find_closest_offsets (data : List Byte) (voffset : Int) : Int × Int × Int :=
  fco_loop data.length data 0 0 0 voffset

/-- Modelled from the spec: loop of the companion operation of the
location model computing (visual offset, character offset) from a byte
offset by a forward walk from the line start
(`cursor_location.voffset_coffset`, not in the shown sources); the fuel
argument only bounds the number of iterations. -/
def voffset_coffset_loop : Nat → List Byte → Int → Int → Int → Int → Int × Int
  | _, [], _, co, vo, _ => (vo, co)
  | 0, _ :: _, _, co, vo, _ => (vo, co)
  | fuel + 1, b :: rest, bo, co, vo, boffset =>
    if bo ≥ boffset then (vo, co)
    else
      let p := utf8DecodeRune (b :: rest)
      voffset_coffset_loop fuel ((b :: rest).drop p.2) (bo + p.2) (co + 1)
        (vo + rune_vodif p.1 vo) boffset

/-- Modelled from the spec: compute (visual offset, character offset) of
the position `boffset` bytes into `data`. -/
def voffset_coffset (data : List Byte) (boffset : Int) : Int × Int :=
  voffset_coffset_loop data.length data 0 0 0 boffset

--------------------------------------------------------------------------
-- Streaming load (`new_buffer_from_reader`) and the reconstruction reader
--------------------------------------------------------------------------

/-- The line contents produced by the `bufio.ReadBytes`-loop of
`new_buffer_from_reader` (`buffer.go:108-153`): split the byte stream on
`\n` (byte 10), each newline terminating a line, the remainder after the
last newline (possibly empty) forming the final line. -/
def splitLines : List Byte → List (List Byte)
  | [] => [[]]
  | b :: rest =>
    if b = 10 then [] :: splitLines rest
    else
      match splitLines rest with
      | [] => [[b]]
      | l :: ls => (b :: l) :: ls

/-- Reconstruction of the byte stream from the stored lines: `\n` is
re-inserted between lines, never after the last line (the inverse of
`splitLines`, realised by `buffer_reader.Read`). -/
def joinLines : List (List Byte) → List Byte
  | [] => []
  | [l] => l
  | l :: ls => l ++ 10 :: joinLines ls


--------------------------------------------------------------------------
-- Data model: cursor locations, actions, action groups, history, buffer
--------------------------------------------------------------------------

/-- `cursor_location` (`line`, `line_num`, `boffset` in the sources): the
line pointer of the Go struct is represented by the 1-based line number,
which identifies the same node in this embedding. -/
structure cursor_location where
  line_num : Int
  boffset : Int
deriving DecidableEq, Repr

inductive action_type where
  | insert
  | delete
deriving DecidableEq, Repr

/-- One atomic edit.  The Go struct stores the slice of line nodes
created (insert) or unlinked (delete) by the edit; in this embedding node
identity is positional, so the field `lines` keeps what the source ever
reads from that slice: its length (`len(a.lines)`), always equal to the
number of `\n` separators in `data`. -/
structure action where
  what : action_type
  data : List Byte
  cursor : cursor_location
  lines : Int
deriving DecidableEq, Repr

/-- One undo step: an ordered list of actions plus the cursor snapshots
taken before and after the group.  The `next`/`prev` pointers of the Go
struct live in the surrounding `history_zipper`. -/
structure action_group where
  actions : List action
  before : cursor_location
  after : cursor_location
deriving DecidableEq, Repr

/-- The zero value of `action_group` (Go's `new(action_group)`). -/
def empty_action_group : action_group :=
  { actions := [], before := ⟨0, 0⟩, after := ⟨0, 0⟩ }

/-- The doubly linked list of action groups with its current pointer
(`buffer.history`): `prevs` lists the predecessor groups nearest first
(`prevs = []` iff the current group is the sentinel), `nexts` lists the
successor groups nearest first (`nexts = []` iff `history.next == nil`). -/
structure history_zipper where
  prevs : List action_group
  cur : action_group
  nexts : List action_group
deriving DecidableEq, Repr

/-- `buffer.init_history` (`buffer.go:184-194`): the pointer starts at a
sentinel group whose successor is one empty group. -/
def init_history : history_zipper :=
  { prevs := [], cur := empty_action_group, nexts := [empty_action_group] }

/-- The buffer: the line store plus history and the optional mark.  The
view registry, view_location save slot, name/path and the incrementally
maintained counters of the Go struct are not needed by any verified
claim; the line and byte counts are recovered from `lines`. -/
structure buffer where
  lines : List (List Byte)
  history : history_zipper
  mark : Option cursor_location
deriving DecidableEq, Repr

def buffer.lines_n (b : buffer) : Int := b.lines.length

/-- The data of the line node with 1-based number `n`. -/
def buffer.getLine (b : buffer) (n : Int) : List Byte :=
  b.lines.getD (n - 1).toNat []

/-- `new_buffer` (`buffer.go:68-85`): one empty line, fresh history. -/
def new_buffer : buffer :=
  { lines := [[]], history := init_history, mark := none }

/-- `new_buffer_from_reader` (`buffer.go:108-153`): the line store is the
input stream split on `\n`; history is freshly initialised.  Read errors
other than end-of-stream are outside this model (the byte list is the
whole stream). -/
def new_buffer_from_reader (s : List Byte) : buffer :=
  { lines := splitLines s, history := init_history, mark := none }

--------------------------------------------------------------------------
-- buffer_reader
--------------------------------------------------------------------------

/-- `buffer_reader` (`buffer.go:236-248`): `rem` is the current line
(head) followed by the remaining lines; `rem = []` plays the role of
`line == nil`, `offset` is the read offset into the current line. -/
structure buffer_reader where
  rem : List (List Byte)
  offset : Nat
deriving DecidableEq, Repr

/-- `buffer.reader` / `new_buffer_reader` (`buffer.go:228-248`). -/
def new_buffer_reader (b : buffer) : buffer_reader :=
  { rem := b.lines, offset := 0 }

/-- `buffer_reader.Read` (`buffer.go:250-281`) on a destination buffer of
capacity `k`: returns the bytes read, the reader state afterwards, and
whether `io.EOF` was returned.  One recursion step per loop iteration
that advances to the next line; a line is the last one exactly when no
lines follow it, in which case no `\n` is emitted and the line pointer
moves to nil (`rem = []`). -/
def buffer_reader_read : Nat → List (List Byte) → Nat →
    List Byte × buffer_reader × Bool
  | 0, rem, off => ([], ⟨rem, off⟩, false)
  | _ + 1, [], off => ([], ⟨[], off⟩, true)
  | k + 1, cur :: rest, off =>
    let can_read := cur.length - off
    if k + 1 ≤ can_read then
      ((cur.drop off).take (k + 1), ⟨cur :: rest, off + (k + 1)⟩, false)
    else
      let part := cur.drop off
      match rest with
      | [] => (part, ⟨[], 0⟩, true)
      | l :: ls =>
        let r := buffer_reader_read (k + 1 - can_read - 1) (l :: ls) 0
        (part ++ 10 :: r.1, r.2.1, r.2.2)

/-- The content of a line store as one byte stream (`\n` between lines,
none after the last); what reading the buffer to exhaustion yields. -/
def reader_content (br : buffer_reader) : List Byte :=
  joinLines br.rem |>.drop br.offset


--------------------------------------------------------------------------
-- Cursor methods (cursor_location is defined outside the shown sources:
-- its operations are modelled from the specification)
--------------------------------------------------------------------------

/-- Modelled from the spec: the cursor is on the first line iff its line
has no predecessor. -/
def cursor_location.first_line (c : cursor_location) : Bool := c.line_num == 1

/-- Modelled from the spec: the cursor is on the last line iff its line
has no successor. -/
def cursor_location.last_line (c : cursor_location) (b : buffer) : Bool :=
  c.line_num == b.lines_n

/-- Modelled from the spec: beginning of line. -/
def cursor_location.bol (c : cursor_location) : Bool := c.boffset == 0

/-- Modelled from the spec: end of line. -/
def cursor_location.eol (c : cursor_location) (b : buffer) : Bool :=
  c.boffset == ((b.getLine c.line_num).length : Int)

/-- Modelled from the spec: the rune under the cursor and its byte
length (decode at the byte offset). -/
def cursor_location.rune_under (c : cursor_location) (b : buffer) : Nat × Nat :=
  utf8DecodeRune ((b.getLine c.line_num).drop c.boffset.toNat)

/-- Modelled from the spec: the rune right before the cursor and its
byte length (decode the last rune of the prefix). -/
def cursor_location.rune_before (c : cursor_location) (b : buffer) : Nat × Nat :=
  (runeSeq ((b.getLine c.line_num).take c.boffset.toNat)).getLastD (65533, 0)

/-- Modelled from the spec: move one rune forward, crossing to the next
line at end of line (the separator counts as one logical character). -/
def cursor_location.move_one_rune_forward (c : cursor_location) (b : buffer) :
    cursor_location :=
  if c.eol b then { line_num := c.line_num + 1, boffset := 0 }
  else { c with boffset := c.boffset + ((c.rune_under b).2 : Int) }

/-- Modelled from the spec: move one rune backward, crossing to the end
of the previous line at beginning of line. -/
def cursor_location.move_one_rune_backward (c : cursor_location) (b : buffer) :
    cursor_location :=
  if c.bol then
    { line_num := c.line_num - 1, boffset := ((b.getLine (c.line_num - 1)).length : Int) }
  else { c with boffset := c.boffset - ((c.rune_before b).2 : Int) }

/-- Modelled from the spec: move to the beginning of the line. -/
def cursor_location.move_beginning_of_line (c : cursor_location) : cursor_location :=
  { c with boffset := 0 }

/-- Modelled from the spec: move to the end of the line. -/
def cursor_location.move_end_of_line (c : cursor_location) (b : buffer) :
    cursor_location :=
  { c with boffset := ((b.getLine c.line_num).length : Int) }

/-- Modelled from the spec: ASCII/whitespace-based word classification —
a word rune is anything but a blank (space or tab). -/
def is_word_rune (r : Nat) : Bool := !(r == 32 || r == 9)

/-- Modelled from the spec: loop scanning a line suffix for the end of
the current word run (`inword` records whether a word rune was already
passed); `pos` is the byte offset of the suffix start; the fuel argument
only bounds the number of iterations. -/
def word_end_loop : Nat → List Byte → Int → Bool → Option Int
  | _, [], pos, inword => if inword then some pos else none
  | 0, _ :: _, pos, inword => if inword then some pos else none
  | fuel + 1, b :: rest, pos, inword =>
    let p := utf8DecodeRune (b :: rest)
    if is_word_rune p.1 then
      word_end_loop fuel ((b :: rest).drop p.2) (pos + (p.2 : Int)) true
    else if inword then some pos
    else word_end_loop fuel ((b :: rest).drop p.2) (pos + (p.2 : Int)) false

/-- Modelled from the spec: scan a line suffix for the end of the
current word run. -/
def word_end_scan (l : List Byte) (pos : Int) (inword : Bool) : Option Int :=
  word_end_loop l.length l pos inword

/-- Modelled from the spec: first line (starting at number `ln`) holding
a word end, with that word-end offset. -/
def word_fwd_lines : List (List Byte) → Int → Option (Int × Int)
  | [], _ => none
  | l :: ls, ln =>
    match word_end_scan l 0 false with
    | some p => some (ln, p)
    | none => word_fwd_lines ls (ln + 1)

/-- Modelled from the spec: move the cursor to the end of the next (or
current) word; when no word end lies strictly ahead the motion reports
the buffer boundary and leaves the cursor unmoved. -/
def cursor_location.move_one_word_forward (c : cursor_location) (b : buffer) :
    cursor_location × Bool :=
  match word_end_scan ((b.getLine c.line_num).drop c.boffset.toNat) c.boffset false with
  | some p => ({ c with boffset := p }, true)
  | none =>
    match word_fwd_lines (b.lines.drop c.line_num.toNat) (c.line_num + 1) with
    | some q => ({ line_num := q.1, boffset := q.2 }, true)
    | none => (c, false)

/-- Modelled from the spec: loop collecting the byte offsets at which a
word run starts in a line (`prev_word` records the class of the
preceding rune); the fuel argument only bounds the iterations. -/
def word_starts_loop : Nat → List Byte → Int → Bool → List Int
  | _, [], _, _ => []
  | 0, _ :: _, _, _ => []
  | fuel + 1, b :: rest, pos, prev_word =>
    let p := utf8DecodeRune (b :: rest)
    let tl := word_starts_loop fuel ((b :: rest).drop p.2) (pos + (p.2 : Int))
      (is_word_rune p.1)
    if is_word_rune p.1 && !prev_word then pos :: tl else tl

/-- Modelled from the spec: byte offsets at which a word run starts in a
line. -/
def word_starts_go (l : List Byte) (pos : Int) (prev_word : Bool) : List Int :=
  word_starts_loop l.length l pos prev_word

/-- Modelled from the spec: last word start in the given lines (listed in
reverse buffer order, `ln` numbering downwards). -/
def word_back_lines : List (List Byte) → Int → Option (Int × Int)
  | [], _ => none
  | l :: ls, ln =>
    match (word_starts_go l 0 false).getLast? with
    | some p => some (ln, p)
    | none => word_back_lines ls (ln - 1)

/-- Modelled from the spec: move the cursor to the beginning of the
previous word; when no word start lies strictly behind the motion
reports the buffer boundary and leaves the cursor unmoved. -/
def cursor_location.move_one_word_backward (c : cursor_location) (b : buffer) :
    cursor_location × Bool :=
  match ((word_starts_go (b.getLine c.line_num) 0 false).filter
      (fun p => decide (p < c.boffset))).getLast? with
  | some p => ({ c with boffset := p }, true)
  | none =>
    match word_back_lines ((b.lines.take (c.line_num - 1).toNat).reverse)
        (c.line_num - 1) with
    | some q => ({ line_num := q.1, boffset := q.2 }, true)
    | none => (c, false)

/-- The bytes of the given lines, each preceded by the `\n` that
separates it from its predecessor. -/
def tail_bytes : List (List Byte) → List Byte
  | [] => []
  | l :: ls => 10 :: (l ++ tail_bytes ls)

/-- Modelled from the spec: the byte stream from the cursor to the end
of the buffer (line separators count one byte). -/
def buffer.remainder_from (b : buffer) (c : cursor_location) : List Byte :=
  (b.getLine c.line_num).drop c.boffset.toNat ++ tail_bytes (b.lines.drop c.line_num.toNat)

/-- Modelled from the spec: `cursor_location.extract_bytes` — the next
`n` bytes of the buffer starting at the cursor. -/
def cursor_extract_bytes (b : buffer) (c : cursor_location) (n : Int) : List Byte :=
  (b.remainder_from c).take n.toNat

/-- The byte position of a cursor in the whole buffer stream. -/
def buffer.global_pos (b : buffer) (c : cursor_location) : Int :=
  (((b.lines.take (c.line_num - 1).toNat).map (fun l => (l.length : Int) + 1)).sum) + c.boffset

/-- Modelled from the spec: `cursor_location.distance` — signed byte
distance from `c1` to `c2`. -/
def cursor_distance (b : buffer) (c1 c2 : cursor_location) : Int :=
  b.global_pos c2 - b.global_pos c1

--------------------------------------------------------------------------
-- Action application to the line store (action.go is outside the shown
-- sources: apply/revert splicing is modelled from the specification)
--------------------------------------------------------------------------

/-- Splice helper: append `post` to the last of the given lines. -/
def spliceTail (post : List Byte) : List (List Byte) → List (List Byte)
  | [] => [post]
  | [s] => [s ++ post]
  | s :: ss => s :: spliceTail post ss

/-- The lines replacing the anchor line of an insert: the payload split
on `\n`, its first segment prefixed with the part of the anchor line
before the cursor, its last segment suffixed with the part after. -/
def spliceSegs (pre post : List Byte) : List (List Byte) → List (List Byte)
  | [] => [pre ++ post]
  | [s] => [pre ++ s ++ post]
  | s :: ss => (pre ++ s) :: spliceTail post ss

/-- Modelled from the spec: insert `data` into the line store at the
cursor — split the anchor line at the byte offset and splice in one new
line node per `\n` separator of the payload. -/
def buffer_insert (b : buffer) (c : cursor_location) (data : List Byte) : buffer :=
  let li := (c.line_num - 1).toNat
  let line := b.lines.getD li []
  let pre := line.take c.boffset.toNat
  let post := line.drop c.boffset.toNat
  { b with lines := b.lines.take li ++ spliceSegs pre post (splitLines data) ++ b.lines.drop (li + 1) }

/-- Delete worker: remove `n` bytes starting behind `pre` in the current
line (`cur` is the rest of that line), unlinking and merging following
lines while the count spans line separators. -/
def delete_step (pre : List Byte) : List Byte → Nat → List (List Byte) → List (List Byte)
  | cur, n, [] => if n ≤ cur.length then [pre ++ cur.drop n] else [pre]
  | cur, n, l :: ls =>
    if n ≤ cur.length then (pre ++ cur.drop n) :: l :: ls
    else delete_step pre l (n - cur.length - 1) ls

/-- Modelled from the spec: remove exactly `n` bytes from the line store
starting at the cursor, merging/unlinking line nodes as needed. -/
def buffer_delete (b : buffer) (c : cursor_location) (n : Int) : buffer :=
  let li := (c.line_num - 1).toNat
  let line := b.lines.getD li []
  let merged := delete_step (line.take c.boffset.toNat) (line.drop c.boffset.toNat)
    n.toNat (b.lines.drop (li + 1))
  { b with lines := b.lines.take li ++ merged }

/-- Modelled from the spec: `action.apply` — replay the edit on the line
store (insert splices the payload in, delete removes its bytes). -/
def action.apply_buffer (a : action) (b : buffer) : buffer :=
  match a.what with
  | .insert => buffer_insert b a.cursor a.data
  | .delete => buffer_delete b a.cursor (a.data.length : Int)

/-- Modelled from the spec: `action.revert` — the exact inverse of
`apply` using the same stored payload. -/
def action.revert_buffer (a : action) (b : buffer) : buffer :=
  match a.what with
  | .insert => buffer_delete b a.cursor (a.data.length : Int)
  | .delete => buffer_insert b a.cursor a.data

/-- Modelled from the spec: `action.deleted_lines` — the 1-based numbers
of the first and last line nodes a delete action unlinked (the lines
following its anchor line). -/
def action.deleted_lines (a : action) : Int × Int :=
  (a.cursor.line_num + 1, a.cursor.line_num + a.lines)

/-- Byte length of the payload after its last `\n` separator. -/
def last_seg_len (data : List Byte) : Int :=
  (((splitLines data).getLastD []).length : Int)

/-- Modelled from the spec: `cursor_location.on_insert_adjust` — repair
a cursor after an insert elsewhere: shift the byte offset by the
inserted byte count when the insert happened at-or-before it on the same
line, shift the line number when whole lines were added before it. -/
def cursor_location.on_insert_adjust (c : cursor_location) (a : action) : cursor_location :=
  if c.line_num < a.cursor.line_num then c
  else if a.cursor.line_num < c.line_num then { c with line_num := c.line_num + a.lines }
  else if c.boffset < a.cursor.boffset then c
  else if a.lines = 0 then { c with boffset := c.boffset + (a.data.length : Int) }
  else { line_num := c.line_num + a.lines,
         boffset := c.boffset - a.cursor.boffset + last_seg_len a.data }

/-- Modelled from the spec: `cursor_location.on_delete_adjust` — repair
a cursor after a delete elsewhere: shift the byte offset by the removed
byte count on the same line, shift the line number when whole lines
before it were removed, clamp to the delete anchor when the cursor was
inside the removed span. -/
def cursor_location.on_delete_adjust (c : cursor_location) (a : action) : cursor_location :=
  if c.line_num < a.cursor.line_num then c
  else if a.cursor.line_num + a.lines < c.line_num then
    { c with line_num := c.line_num - a.lines }
  else if c.line_num = a.cursor.line_num then
    if c.boffset ≤ a.cursor.boffset then c
    else if a.lines = 0 then
      if a.cursor.boffset + (a.data.length : Int) ≤ c.boffset then
        { c with boffset := c.boffset - (a.data.length : Int) }
      else { c with boffset := a.cursor.boffset }
    else { c with boffset := a.cursor.boffset }
  else if c.line_num = a.cursor.line_num + a.lines then
    if c.boffset ≤ last_seg_len a.data then
      { line_num := a.cursor.line_num, boffset := a.cursor.boffset }
    else { line_num := a.cursor.line_num,
           boffset := a.cursor.boffset + (c.boffset - last_seg_len a.data) }
  else { line_num := a.cursor.line_num, boffset := a.cursor.boffset }

--------------------------------------------------------------------------
-- View: dirty flags, command classes, viewport state
--------------------------------------------------------------------------

/-- The two independent dirty bits (`dirty_flag`, `view.go:16-23`),
embedded as a pair of booleans instead of a bitmask. -/
structure dirty_flag where
  contents : Bool
  status : Bool
deriving DecidableEq, Repr

def dirty_everything : dirty_flag := ⟨true, true⟩

/-- `v.dirty |= dirty_status`. -/
def dirty_flag.or_status (d : dirty_flag) : dirty_flag := ⟨d.contents, true⟩

inductive vcommand_class where
  | none
  | movement
  | insertion
  | deletion
  | history
  | misc
deriving DecidableEq, Repr

/-- The closed command set (`vcommand`, `view.go:1083-1129`); the
`_beg`/`_end` range markers of the Go iota encoding are represented by
the grouping of `vcommand.cls` below. -/
inductive vcommand where
  | move_cursor_forward
  | move_cursor_backward
  | move_cursor_word_forward
  | move_cursor_word_backward
  | move_cursor_next_line
  | move_cursor_prev_line
  | move_cursor_beginning_of_line
  | move_cursor_end_of_line
  | move_cursor_beginning_of_file
  | move_cursor_end_of_file
  | move_view_half_forward
  | move_view_half_backward
  | set_mark
  | swap_cursor_and_mark
  | insert_rune
  | delete_rune_backward
  | delete_rune
  | kill_line
  | kill_word
  | kill_region
  | undo
  | redo
  | autocompl_init
  | autocompl_move_cursor_up
  | autocompl_move_cursor_down
  | autocompl_finalize
deriving DecidableEq, Repr

/-- `vcommand.class` (`view.go:1131-1145`); named `cls` here because
`class` is reserved in Lean. -/
def vcommand.cls : vcommand → vcommand_class
  | .move_cursor_forward => .movement
  | .move_cursor_backward => .movement
  | .move_cursor_word_forward => .movement
  | .move_cursor_word_backward => .movement
  | .move_cursor_next_line => .movement
  | .move_cursor_prev_line => .movement
  | .move_cursor_beginning_of_line => .movement
  | .move_cursor_end_of_line => .movement
  | .move_cursor_beginning_of_file => .movement
  | .move_cursor_end_of_file => .movement
  | .move_view_half_forward => .movement
  | .move_view_half_backward => .movement
  | .set_mark => .movement
  | .swap_cursor_and_mark => .movement
  | .insert_rune => .insertion
  | .delete_rune_backward => .deletion
  | .delete_rune => .deletion
  | .kill_line => .deletion
  | .kill_word => .deletion
  | .kill_region => .deletion
  | .undo => .history
  | .redo => .history
  | .autocompl_init => .misc
  | .autocompl_move_cursor_up => .misc
  | .autocompl_move_cursor_down => .misc
  | .autocompl_finalize => .misc

/-- The view (`view.go:75-85`) with its embedded `view_location`
(`view.go:33-58`).  The ui buffer is represented by its dimensions, the
status reporter by the last reported notice, the top-line pointer by its
line number; the autocompletion session (an external collaborator) is
not modelled. -/
structure view where
  cursor : cursor_location
  top_line_num : Int
  cursor_coffset : Int
  cursor_voffset : Int
  line_voffset : Int
  last_cursor_voffset : Int
  buf : buffer
  uibuf_width : Int
  uibuf_height : Int
  oneline : Bool
  dirty : dirty_flag
  last_vcommand_class : vcommand_class
  sr_status : Option String
deriving DecidableEq, Repr

/-- `view.height` (`view.go:135-140`). -/
def view.height (v : view) : Int :=
  if !v.oneline then v.uibuf_height - 1 else v.uibuf_height

/-- `view.width` (`view.go:158-161`). -/
def view.width (v : view) : Int := v.uibuf_width

/-- `view.vertical_threshold` (`view.go:142-148`); Go integer division
truncates toward zero, hence `Int.tdiv`. -/
def view.vertical_threshold (v : view) : Int :=
  let m := Int.tdiv (v.height - 1) 2
  if view_vertical_threshold > m then m else view_vertical_threshold

/-- `view.horizontal_threshold` (`view.go:150-156`). -/
def view.horizontal_threshold (v : view) : Int :=
  let m := Int.tdiv (v.width - 1) 2
  if view_horizontal_threshold > m then m else view_horizontal_threshold

/-- `view.set_status` via the status-reporter collaborator: the view
records the notice it pushed. -/
def view.set_status (v : view) (s : String) : view := { v with sr_status := some s }

/-- `view.move_top_line_n_times` (`view.go:321-338`): the walk along the
linked lines stops at the first/last line, i.e. the top line number is
shifted by `n` clamped to `[1, lines_n]` (line numbers being the node
identity of this embedding). -/
def view.move_top_line_n_times (v : view) (n : Int) : view :=
  if n = 0 then v
  else if n < 0 then { v with top_line_num := max 1 (v.top_line_num + n) }
  else { v with top_line_num := min v.buf.lines_n (v.top_line_num + n) }

/-- `view.move_cursor_line_n_times` (`view.go:341-358`): same clamped
shift for the cursor line; the byte offset is left as is. -/
def view.move_cursor_line_n_times (v : view) (n : Int) : view :=
  if n = 0 then v
  else if n < 0 then
    { v with cursor := { v.cursor with line_num := max 1 (v.cursor.line_num + n) } }
  else
    { v with cursor := { v.cursor with line_num := min v.buf.lines_n (v.cursor.line_num + n) } }

/-- `view.adjust_line_voffset` (`view.go:409-434`). -/
def view.adjust_line_voffset (v : view) : view :=
  let ht := v.horizontal_threshold
  let w := v.uibuf_width
  let vo0 := v.line_voffset
  let cvo := v.cursor_voffset
  let threshold := if vo0 ≠ 0 then (w - 1) - (ht - 1) else w - 1
  let vo1 := if cvo - vo0 ≥ threshold then cvo + (ht - w + 1) else vo0
  let vo2 := if vo1 ≠ 0 ∧ cvo - vo1 < ht then (if cvo - ht < 0 then 0 else cvo - ht) else vo1
  if v.line_voffset ≠ vo2 then { v with line_voffset := vo2, dirty := dirty_everything }
  else v

/-- `view.adjust_cursor_line` (`view.go:362-386`): after a top-line
move, pull the cursor back into the vertical margins, recomputing its
offsets for the remembered visual column when it moved. -/
def view.adjust_cursor_line (v : view) : view :=
  let vt := v.vertical_threshold
  let cursor := v.cursor
  let co := v.cursor.line_num - v.top_line_num
  let h := v.height
  let v1 := if cursor.line_num < v.buf.lines_n ∧ co < vt then
      v.move_cursor_line_n_times (vt - co)
    else v
  let v2 := if 1 < cursor.line_num ∧ co ≥ h - vt then
      v1.move_cursor_line_n_times ((h - vt) - co - 1)
    else v1
  if cursor.line_num ≠ v2.cursor.line_num then
    let line := v2.buf.getLine v2.cursor.line_num
    let r := find_closest_offsets line v2.last_cursor_voffset
    let v3 := { v2 with cursor := { v2.cursor with boffset := r.1 },
                        cursor_coffset := r.2.1, cursor_voffset := r.2.2,
                        line_voffset := 0 }
    let v4 := v3.adjust_line_voffset
    { v4 with dirty := dirty_everything }
  else v2

/-- `view.adjust_top_line` (`view.go:390-405`): after a cursor move,
shift the top line so the cursor sits back inside the vertical margins. -/
def view.adjust_top_line (v : view) : view :=
  let vt := v.vertical_threshold
  let top := v.top_line_num
  let co := v.cursor.line_num - v.top_line_num
  let h := v.height
  let v1 := if top < v.buf.lines_n ∧ co ≥ h - vt then
      { (v.move_top_line_n_times (co - (h - vt) + 1)) with dirty := dirty_everything }
    else v
  if 1 < top ∧ co < vt then
    { (v1.move_top_line_n_times (co - vt)) with dirty := dirty_everything }
  else v1

/-- `view.move_cursor_to` (`view.go:452-482`): commit a target location,
recomputing character/visual offsets (snapping to the remembered visual
column when the byte offset is the `-1` sentinel), then repair
horizontal pan and vertical scroll.  The autocompletion update hook is
external and not modelled. -/
def view.move_cursor_to (v : view) (c : cursor_location) : view :=
  let v := { v with dirty := v.dirty.or_status }
  let cline := v.buf.getLine c.line_num
  let v :=
    if c.boffset < 0 then
      let r := find_closest_offsets cline v.last_cursor_voffset
      { v with cursor := { v.cursor with boffset := r.1 },
               cursor_coffset := r.2.1, cursor_voffset := r.2.2 }
    else
      let r := voffset_coffset cline c.boffset
      { v with cursor := { v.cursor with boffset := c.boffset },
               cursor_coffset := r.2, cursor_voffset := r.1 }
  let v :=
    if c.line_num = v.cursor.line_num then { v with last_cursor_voffset := v.cursor_voffset }
    else { v with line_voffset := 0 }
  let v := { v with cursor := { line_num := c.line_num, boffset := v.cursor.boffset } }
  let v := v.adjust_line_voffset
  v.adjust_top_line

--------------------------------------------------------------------------
-- History protocol and edit commands
--------------------------------------------------------------------------

/-- Modelled from the spec: `action_group.append` — record one more
action at the end of the current group. -/
def history_zipper.append (h : history_zipper) (a : action) : history_zipper :=
  { h with cur := { h.cur with actions := h.cur.actions ++ [a] } }

/-- Modelled from the spec: `action.apply` on the acting view mutates
the shared buffer; notifying the *other* attached views is the separate
`on_insert`/`on_delete` step, modelled per view below. -/
def action.apply_view (a : action) (v : view) : view :=
  { v with buf := a.apply_buffer v.buf }

/-- Modelled from the spec: `action.revert` on the acting view. -/
def action.revert_view (a : action) (v : view) : view :=
  { v with buf := a.revert_buffer v.buf }

/-- `view.maybe_next_action_group` (`view.go:614-627`): if the current
group has a successor, advance into it, clear its actions, sever its
`next` pointer (dropping every later group) and record the pre-edit
cursor as its "before" snapshot. -/
def view.maybe_next_action_group (v : view) : view :=
  let b := v.buf
  match b.history.nexts with
  | [] => v
  | g :: _ =>
    { v with buf := { b with history :=
        { prevs := b.history.cur :: b.history.prevs,
          cur := { g with actions := [], before := v.cursor },
          nexts := [] } } }

/-- `view.finalize_action_group` (`view.go:629-638`): only at the tip of
the history (no successor) create an empty successor group and record
the post-edit cursor as the current group's "after" snapshot. -/
def view.finalize_action_group (v : view) : view :=
  let b := v.buf
  match b.history.nexts with
  | [] =>
    { v with buf := { b with history :=
        { b.history with
          nexts := [empty_action_group],
          cur := { b.history.cur with after := v.cursor } } } }
  | _ => v

/-- `view.undo` (`view.go:640-659`). -/
def view.undo (v : view) : view :=
  match v.buf.history.prevs with
  | [] => v
  | _ :: _ =>
    let v1 := v.finalize_action_group
    let v2 := (v1.buf.history.cur.actions.reverse).foldl (fun vv a => a.revert_view vv) v1
    let v3 := v2.move_cursor_to v2.buf.history.cur.before
    let v4 := { v3 with last_cursor_voffset := v3.cursor_voffset }
    match v4.buf.history.prevs with
    | [] => v4
    | p :: ps =>
      { v4 with buf := { v4.buf with history :=
          ⟨ps, p, v4.buf.history.cur :: v4.buf.history.nexts⟩ } }

/-- `view.redo` (`view.go:661-681`). -/
def view.redo (v : view) : view :=
  match v.buf.history.nexts with
  | [] => v
  | g :: gs =>
    if g.actions.length = 0 then v
    else
      let v1 := { v with buf := { v.buf with history :=
          ⟨v.buf.history.cur :: v.buf.history.prevs, g, gs⟩ } }
      let v2 := v1.buf.history.cur.actions.foldl (fun vv a => a.apply_view vv) v1
      let v3 := v2.move_cursor_to v2.buf.history.cur.after
      { v3 with last_cursor_voffset := v3.cursor_voffset }

/-- `view.action_insert` (`view.go:683-696`): open the successor group
if one exists, build the insert action (one line node per `\n` in the
payload), apply it and record it. -/
def view.action_insert (v : view) (c : cursor_location) (data : List Byte) : view :=
  let v := v.maybe_next_action_group
  let a : action := { what := .insert, data := data, cursor := c,
                      lines := ((data.count 10 : Nat) : Int) }
  let v := a.apply_view v
  { v with buf := { v.buf with history := v.buf.history.append a } }

/-- `view.action_delete` (`view.go:698-713`). -/
def view.action_delete (v : view) (c : cursor_location) (nbytes : Int) : view :=
  let v := v.maybe_next_action_group
  let d := cursor_extract_bytes v.buf c nbytes
  let a : action := { what := .delete, data := d, cursor := c,
                      lines := ((d.count 10 : Nat) : Int) }
  let v := a.apply_view v
  { v with buf := { v.buf with history := v.buf.history.append a } }

/-- `view.insert_rune` (`view.go:716-730`). -/
def view.insert_rune (v : view) (r : Nat) : view :=
  let data := utf8EncodeRune r
  let c := v.cursor
  let v := v.action_insert c data
  let c := if r = 10 then (⟨c.line_num + 1, 0⟩ : cursor_location)
           else { c with boffset := c.boffset + (data.length : Int) }
  let v := v.move_cursor_to c
  { v with dirty := dirty_everything }

/-- `view.delete_rune_backward` (`view.go:734-756`). -/
def view.delete_rune_backward (v : view) : view :=
  let c := v.cursor
  if c.bol then
    if c.first_line then v.set_status "Beginning of buffer"
    else
      let c : cursor_location :=
        ⟨c.line_num - 1, ((v.buf.getLine (c.line_num - 1)).length : Int)⟩
      let v := v.action_delete c 1
      let v := v.move_cursor_to c
      { v with dirty := dirty_everything }
  else
    let rlen := ((c.rune_before v.buf).2 : Int)
    let c := { c with boffset := c.boffset - rlen }
    let v := v.action_delete c rlen
    let v := v.move_cursor_to c
    { v with dirty := dirty_everything }

/-- `view.delete_rune` (`view.go:761-777`). -/
def view.delete_rune (v : view) : view :=
  let c := v.cursor
  if c.eol v.buf then
    if c.last_line v.buf then v.set_status "End of buffer"
    else
      let v := v.action_delete c 1
      { v with dirty := dirty_everything }
  else
    let rlen := ((c.rune_under v.buf).2 : Int)
    let v := v.action_delete c rlen
    { v with dirty := dirty_everything }

/-- `view.kill_line` (`view.go:781-790`). -/
def view.kill_line (v : view) : view :=
  let c := v.cursor
  if !(c.eol v.buf) then
    let v := v.action_delete c (((v.buf.getLine c.line_num).length : Int) - c.boffset)
    { v with dirty := dirty_everything }
  else v.delete_rune

/-- `view.kill_word` (`view.go:792-800`). -/
def view.kill_word (v : view) : view :=
  let c1 := v.cursor
  let c2 := (c1.move_one_word_forward v.buf).1
  let d := cursor_distance v.buf c1 c2
  if d > 0 then v.action_delete c1 d else v

/-- `view.kill_region` (`view.go:802-821`). -/
def view.kill_region (v : view) : view :=
  match v.buf.mark with
  | none => v.set_status "The mark is not set now, so there is no region"
  | some m =>
    let c1 := v.cursor
    let d := cursor_distance v.buf c1 m
    if d = 0 then v
    else if d < 0 then
      let v := v.action_delete m (-d)
      v.move_cursor_to m
    else v.action_delete c1 d

/-- `view.set_mark` (`view.go:823-826`). -/
def view.set_mark_cmd (v : view) : view :=
  let v := { v with buf := { v.buf with mark := some v.cursor } }
  v.set_status "Mark set"

/-- `view.swap_cursor_and_mark` (`view.go:828-834`). -/
def view.swap_cursor_and_mark (v : view) : view :=
  match v.buf.mark with
  | none => v
  | some m =>
    let v := { v with buf := { v.buf with mark := some v.cursor } }
    v.move_cursor_to m

--------------------------------------------------------------------------
-- Cursor movement commands, view scrolling commands
--------------------------------------------------------------------------

/-- `view.move_cursor_forward` (`view.go:485-494`). -/
def view.move_cursor_forward (v : view) : view :=
  let c := v.cursor
  if c.last_line v.buf && c.eol v.buf then v.set_status "End of buffer"
  else v.move_cursor_to (c.move_one_rune_forward v.buf)

/-- `view.move_cursor_backward` (`view.go:497-506`). -/
def view.move_cursor_backward (v : view) : view :=
  let c := v.cursor
  if c.first_line && c.bol then v.set_status "Beginning of buffer"
  else v.move_cursor_to (c.move_one_rune_backward v.buf)

/-- `view.move_cursor_next_line` (`view.go:509-517`). -/
def view.move_cursor_next_line (v : view) : view :=
  let c := v.cursor
  if !(c.last_line v.buf) then v.move_cursor_to ⟨c.line_num + 1, -1⟩
  else v.set_status "End of buffer"

/-- `view.move_cursor_prev_line` (`view.go:520-528`). -/
def view.move_cursor_prev_line (v : view) : view :=
  let c := v.cursor
  if !c.first_line then v.move_cursor_to ⟨c.line_num - 1, -1⟩
  else v.set_status "Beginning of buffer"

/-- `view.move_cursor_beginning_of_line` (`view.go:531-535`). -/
def view.move_cursor_beginning_of_line (v : view) : view :=
  v.move_cursor_to v.cursor.move_beginning_of_line

/-- `view.move_cursor_end_of_line` (`view.go:538-542`). -/
def view.move_cursor_end_of_line (v : view) : view :=
  v.move_cursor_to (v.cursor.move_end_of_line v.buf)

/-- `view.move_cursor_beginning_of_file` (`view.go:545-548`). -/
def view.move_cursor_beginning_of_file (v : view) : view :=
  v.move_cursor_to ⟨1, 0⟩

/-- `view.move_cursor_end_of_file` (`view.go:551-554`). -/
def view.move_cursor_end_of_file (v : view) : view :=
  v.move_cursor_to ⟨v.buf.lines_n, ((v.buf.getLine v.buf.lines_n).length : Int)⟩

/-- `view.move_cursor_word_forward` (`view.go:557-564`). -/
def view.move_cursor_word_forward (v : view) : view :=
  let r := v.cursor.move_one_word_forward v.buf
  let v := v.move_cursor_to r.1
  if !r.2 then v.set_status "End of buffer" else v

/-- `view.move_cursor_word_backward` (`view.go:566-573`). -/
def view.move_cursor_word_backward (v : view) : view :=
  let r := v.cursor.move_one_word_backward v.buf
  let v := v.move_cursor_to r.1
  if !r.2 then v.set_status "Beginning of buffer" else v

/-- `view.move_view_n_lines` (`view.go:576-583`). -/
def view.move_view_n_lines (v : view) (n : Int) : view :=
  let prevtop := v.top_line_num
  let v := v.move_top_line_n_times n
  let v := v.adjust_cursor_line
  if prevtop ≠ v.top_line_num then { v with dirty := dirty_everything } else v

/-- `view.can_move_top_line_n_times` (`view.go:586-605`): the walk
covers the whole distance iff the shift stays within `[1, lines_n]`. -/
def view.can_move_top_line_n_times (v : view) (n : Int) : Bool :=
  if n = 0 then true
  else if n < 0 then 1 ≤ v.top_line_num + n
  else v.top_line_num + n ≤ v.buf.lines_n

/-- `view.maybe_move_view_n_lines` (`view.go:608-612`). -/
def view.maybe_move_view_n_lines (v : view) (n : Int) : view :=
  if v.can_move_top_line_n_times n then v.move_view_n_lines n else v

--------------------------------------------------------------------------
-- Multi-view notification handlers
--------------------------------------------------------------------------

/-- `view.on_insert_adjust_top_line` (`view.go:836-842`). -/
def view.on_insert_adjust_top_line (v : view) (a : action) : view :=
  if a.cursor.line_num < v.top_line_num ∧ 0 < a.lines then
    { v with top_line_num := v.top_line_num + a.lines, dirty := v.dirty.or_status }
  else v

/-- `view.on_delete_adjust_top_line` (`view.go:844-869`). -/
def view.on_delete_adjust_top_line (v : view) (a : action) : view :=
  if a.cursor.line_num < v.top_line_num then
    if a.lines = 0 then v
    else
      let topnum := v.top_line_num
      let fl := a.deleted_lines
      if fl.1 ≤ topnum ∧ topnum ≤ fl.2 then
        if a.cursor.line_num < v.buf.lines_n then
          { v with top_line_num := a.cursor.line_num + 1, dirty := dirty_everything }
        else
          { v with top_line_num := a.cursor.line_num, dirty := dirty_everything }
      else
        { v with top_line_num := v.top_line_num - a.lines, dirty := v.dirty.or_status }
  else v

/-- `view.on_insert` (`view.go:871-891`). -/
def view.on_insert (v : view) (a : action) : view :=
  let v := v.on_insert_adjust_top_line a
  if v.top_line_num + v.height ≤ a.cursor.line_num then v
  else if a.cursor.line_num < v.top_line_num then
    if 0 < a.lines then
      { v with cursor := { v.cursor with line_num := v.cursor.line_num + a.lines },
               dirty := v.dirty.or_status }
    else v
  else
    let c := v.cursor.on_insert_adjust a
    let v := v.move_cursor_to c
    { v with last_cursor_voffset := v.cursor_voffset, dirty := dirty_everything }

/-- `view.on_delete` (`view.go:893-918`). -/
def view.on_delete (v : view) (a : action) : view :=
  let v := v.on_delete_adjust_top_line a
  if v.top_line_num + v.height ≤ a.cursor.line_num then v
  else if a.cursor.line_num < v.top_line_num ∧ a.lines = 0 then v
  else if a.cursor.line_num < v.top_line_num ∧ a.deleted_lines.2 < v.top_line_num then
    { v with cursor := { v.cursor with line_num := v.cursor.line_num - a.lines },
             dirty := v.dirty.or_status }
  else
    let c := v.cursor.on_delete_adjust a
    let v := v.move_cursor_to c
    { v with last_cursor_voffset := v.cursor_voffset, dirty := dirty_everything }

--------------------------------------------------------------------------
-- Command dispatch
--------------------------------------------------------------------------

/-- The `switch cmd` body of `view.on_vcommand` (`view.go:927-981`); the
four autocompletion commands drive the external autocompletion
collaborator only and leave the modelled state unchanged. -/
def view.dispatch_vcommand (v : view) (cmd : vcommand) (arg : Nat) : view :=
  match cmd with
  | .move_cursor_forward => v.move_cursor_forward
  | .move_cursor_backward => v.move_cursor_backward
  | .move_cursor_word_forward => v.move_cursor_word_forward
  | .move_cursor_word_backward => v.move_cursor_word_backward
  | .move_cursor_next_line => v.move_cursor_next_line
  | .move_cursor_prev_line => v.move_cursor_prev_line
  | .move_cursor_beginning_of_line => v.move_cursor_beginning_of_line
  | .move_cursor_end_of_line => v.move_cursor_end_of_line
  | .move_cursor_beginning_of_file => v.move_cursor_beginning_of_file
  | .move_cursor_end_of_file => v.move_cursor_end_of_file
  | .move_view_half_forward => v.maybe_move_view_n_lines (Int.tdiv v.height 2)
  | .move_view_half_backward => v.move_view_n_lines (Int.tdiv (-v.height) 2)
  | .set_mark => v.set_mark_cmd
  | .swap_cursor_and_mark => v.swap_cursor_and_mark
  | .insert_rune => v.insert_rune arg
  | .delete_rune_backward => v.delete_rune_backward
  | .delete_rune => v.delete_rune
  | .kill_line => v.kill_line
  | .kill_word => v.kill_word
  | .kill_region => v.kill_region
  | .undo => v.undo
  | .redo => v.redo
  | .autocompl_init => v
  | .autocompl_move_cursor_up => v
  | .autocompl_move_cursor_down => v
  | .autocompl_finalize => v

/-- `view.on_vcommand` (`view.go:920-982`): a command class different
from the previous command's class records the new class and finalizes
the open action group before the command body runs. -/
def view.on_vcommand (v : view) (cmd : vcommand) (arg : Nat) : view :=
  let cls := cmd.cls
  let v := if cls ≠ v.last_vcommand_class then
      ({ v with last_vcommand_class := cls }).finalize_action_group
    else v
  v.dispatch_vcommand cmd arg

--------------------------------------------------------------------------
-- Specification-side composites and test fixtures
--------------------------------------------------------------------------

/-- The spec's description of `undo`, assembled from its words: no-op at
the sentinel; otherwise finalize first, revert every action of the
current group in reverse recording order, move the cursor to the
"before" snapshot and step the pointer to the predecessor group. -/
def view.undo_spec (v : view) : view :=
  if v.buf.history.prevs.isEmpty then v
  else
    let v1 := v.finalize_action_group
    let g := v1.buf.history.cur
    let v2 := g.actions.foldr (fun a vv => a.revert_view vv) v1
    let v3 := v2.move_cursor_to g.before
    let v4 := { v3 with last_cursor_voffset := v3.cursor_voffset }
    { v4 with buf := { v4.buf with history :=
        ⟨v.buf.history.prevs.tail, v.buf.history.prevs.headD empty_action_group,
         g :: v1.buf.history.nexts⟩ } }

/-- The spec's description of `redo`, assembled from its words: no-op
when no successor exists or the successor has no recorded actions;
otherwise step the pointer to the successor, apply its actions in
recorded order and move the cursor to the "after" snapshot. -/
def view.redo_spec (v : view) : view :=
  if v.buf.history.nexts.isEmpty then v
  else
    let g := v.buf.history.nexts.headD empty_action_group
    if g.actions.isEmpty then v
    else
      let v1 := { v with buf := { v.buf with history :=
          ⟨v.buf.history.cur :: v.buf.history.prevs, g, v.buf.history.nexts.tail⟩ } }
      let v2 := g.actions.foldl (fun vv a => a.apply_view vv) v1
      let v3 := v2.move_cursor_to g.after
      { v3 with last_cursor_voffset := v3.cursor_voffset }

/-- Cumulative visual offset after walking the given runes starting at
visual offset `vo` (the accumulation rule of `find_closest_offsets`). -/
def visual_sum (vo : Int) : List (Nat × Nat) → Int
  | [] => vo
  | p :: ps => visual_sum (vo + rune_vodif p.1 vo) ps

/-- Total byte length of the given runes. -/
def byte_sum (rs : List (Nat × Nat)) : Int := ((rs.map Prod.snd).sum : Nat)

/-- The lines a view displays: `height` lines starting at the top line. -/
def view.visible_lines (v : view) : List (List Byte) :=
  (v.buf.lines.drop (v.top_line_num - 1).toNat).take v.height.toNat

/-- A freshly created, activated view on a new empty buffer inside a
80x24 viewport (what `new_view` plus `resize` and `activate` set up). -/
def scratch_view : view :=
  { cursor := ⟨1, 0⟩, top_line_num := 1, cursor_coffset := 0, cursor_voffset := 0,
    line_voffset := 0, last_cursor_voffset := 0, buf := new_buffer,
    uibuf_width := 80, uibuf_height := 24, oneline := false,
    dirty := dirty_everything, last_vcommand_class := .none, sr_status := none }

/-- A view with usable height 20 (rectangle 80x21 plus status line),
margin 5, top line 50, over a 100-line buffer, with its cursor on line
`cl` — the spec's scroll-margin scenario. -/
def margin_view (cl : Int) : view :=
  { cursor := ⟨cl, 0⟩, top_line_num := 50, cursor_coffset := 0, cursor_voffset := 0,
    line_voffset := 0, last_cursor_voffset := 0,
    buf := { lines := List.replicate 100 [], history := init_history, mark := none },
    uibuf_width := 80, uibuf_height := 21, oneline := false,
    dirty := ⟨false, false⟩, last_vcommand_class := .none, sr_status := none }

/-- Two consecutive ordinary insertions dispatched through
`on_vcommand`: no class change in between. -/
def scenario_two_inserts : view :=
  (scratch_view.on_vcommand .insert_rune 97).on_vcommand .insert_rune 98

/-- Two insertions with a movement command in between dispatched through
`on_vcommand`: the class changes twice. -/
def scenario_insert_move_insert : view :=
  ((scratch_view.on_vcommand .insert_rune 97).on_vcommand
      .move_cursor_backward 0).on_vcommand .insert_rune 98

--------------------------------------------------------------------------
-- Theorems: loader/reader round trip
--------------------------------------------------------------------------

theorem splitLines_ne_nil (s : List Byte) : splitLines s ≠ [] := by
  induction s with
  | nil => simp [splitLines]
  | cons b rest ih =>
    simp only [splitLines]
    split
    · simp
    · cases h : splitLines rest <;> simp

theorem joinLines_splitLines (s : List Byte) : joinLines (splitLines s) = s := by
  induction s with
  | nil => simp [splitLines, joinLines]
  | cons b rest ih =>
    simp only [splitLines]
    split
    · rename_i hb
      subst hb
      cases h : splitLines rest with
      | nil => exact absurd h (splitLines_ne_nil rest)
      | cons l ls =>
        simp only [joinLines]
        rw [h] at ih
        cases ls with
        | nil => simp_all [joinLines]
        | cons l2 ls2 => simp_all [joinLines]
    · cases h : splitLines rest with
      | nil => exact absurd h (splitLines_ne_nil rest)
      | cons l ls =>
        rw [h] at ih
        cases ls with
        | nil => simp_all [joinLines]
        | cons l2 ls2 => simp_all [joinLines]

theorem buffer_reader_read_all (ls : List (List Byte)) (h : ls ≠ []) :
    buffer_reader_read ((joinLines ls).length + 1) ls 0 =
      (joinLines ls, ⟨[], 0⟩, true) := by
  induction ls with
  | nil => exact absurd rfl h
  | cons l rest ih =>
    cases rest with
    | nil =>
      have h2 : ¬(l.length + 1 ≤ l.length - 0) := by omega
      have hj : joinLines [l] = l := rfl
      rw [hj]
      simp only [buffer_reader_read]
      rw [if_neg h2]
      simp
    | cons l2 ls2 =>
      have hj : joinLines (l :: l2 :: ls2) = l ++ 10 :: joinLines (l2 :: ls2) := rfl
      rw [hj]
      simp only [buffer_reader_read]
      have h2 : ¬((l ++ 10 :: joinLines (l2 :: ls2)).length + 1 ≤ l.length - 0) := by
        simp
        omega
      have h3 : (l ++ 10 :: joinLines (l2 :: ls2)).length + 1 - (l.length - 0) - 1 =
          (joinLines (l2 :: ls2)).length + 1 := by
        simp
        omega
      rw [if_neg h2, h3, ih (by simp)]
      simp

/-- C1: constructing a buffer from any input byte stream with
`new_buffer_from_reader` (including the empty stream, a stream with no
trailing newline, and a single newline) and then reading the buffer back
to exhaustion through the `buffer_reader` returned by `reader()` — one
`Read` into a destination larger than the content drains it and returns
`io.EOF` — yields exactly the original byte sequence. -/
theorem C1_load_read_round_trip (s : List Byte) :
    buffer_reader_read (s.length + 1)
        (new_buffer_reader (new_buffer_from_reader s)).rem
        (new_buffer_reader (new_buffer_from_reader s)).offset
      = (s, ⟨[], 0⟩, true)
    ∧ reader_content (new_buffer_reader (new_buffer_from_reader s)) = s := by
  have hs := joinLines_splitLines s
  constructor
  · show buffer_reader_read (s.length + 1) (splitLines s) 0 = _
    have hall := buffer_reader_read_all (splitLines s) (splitLines_ne_nil s)
    rw [hs] at hall
    exact hall
  · simp [reader_content, new_buffer_reader, new_buffer_from_reader, hs]

--------------------------------------------------------------------------
-- Preservation lemmas for the history protocol
--------------------------------------------------------------------------

theorem revert_view_history (a : action) (v : view) :
    (a.revert_view v).buf.history = v.buf.history := by
  obtain ⟨w, d, c, n⟩ := a
  cases w <;> rfl

theorem apply_view_history (a : action) (v : view) :
    (a.apply_view v).buf.history = v.buf.history := by
  obtain ⟨w, d, c, n⟩ := a
  cases w <;> rfl

theorem revert_view_only_buf (a : action) (v : view) :
    (a.revert_view v).cursor = v.cursor ∧ (a.revert_view v).cursor_voffset = v.cursor_voffset := by
  constructor <;> rfl

theorem foldl_revert_history (l : List action) (v : view) :
    (l.foldl (fun vv a => a.revert_view vv) v).buf.history = v.buf.history := by
  induction l generalizing v with
  | nil => rfl
  | cons a l ih => rw [List.foldl_cons, ih, revert_view_history]

theorem foldl_apply_history (l : List action) (v : view) :
    (l.foldl (fun vv a => a.apply_view vv) v).buf.history = v.buf.history := by
  induction l generalizing v with
  | nil => rfl
  | cons a l ih => rw [List.foldl_cons, ih, apply_view_history]

theorem move_top_line_n_times_buf (v : view) (n : Int) :
    (v.move_top_line_n_times n).buf = v.buf := by
  unfold view.move_top_line_n_times
  split_ifs <;> rfl

theorem move_cursor_line_n_times_buf (v : view) (n : Int) :
    (v.move_cursor_line_n_times n).buf = v.buf := by
  unfold view.move_cursor_line_n_times
  split_ifs <;> rfl

theorem adjust_line_voffset_buf (v : view) :
    (v.adjust_line_voffset).buf = v.buf := by
  unfold view.adjust_line_voffset
  dsimp only
  split_ifs <;> rfl

theorem adjust_top_line_buf (v : view) :
    (v.adjust_top_line).buf = v.buf := by
  unfold view.adjust_top_line
  dsimp only
  split_ifs <;> simp [move_top_line_n_times_buf]

theorem adjust_cursor_line_buf (v : view) :
    (v.adjust_cursor_line).buf = v.buf := by
  unfold view.adjust_cursor_line
  dsimp only
  split_ifs <;> simp [adjust_line_voffset_buf, move_cursor_line_n_times_buf]

theorem move_cursor_to_buf (v : view) (c : cursor_location) :
    (v.move_cursor_to c).buf = v.buf := by
  unfold view.move_cursor_to
  dsimp only
  split_ifs <;> simp [adjust_top_line_buf, adjust_line_voffset_buf]

theorem finalize_action_group_prevs (v : view) :
    (v.finalize_action_group).buf.history.prevs = v.buf.history.prevs := by
  unfold view.finalize_action_group
  dsimp only
  cases h : v.buf.history.nexts <;> simp [h]

theorem maybe_next_action_group_nexts (v : view) :
    (v.maybe_next_action_group).buf.history.nexts = [] ∨
      (v.maybe_next_action_group).buf.history.nexts = v.buf.history.nexts := by
  unfold view.maybe_next_action_group
  dsimp only
  cases h : v.buf.history.nexts with
  | nil => right; simp [h]
  | cons g gs => left; simp [h]

--------------------------------------------------------------------------
-- Theorems: history protocol (undo / redo / group severing)
--------------------------------------------------------------------------

theorem foldr_revert_history (l : List action) (v : view) :
    (l.foldr (fun a vv => a.revert_view vv) v).buf.history = v.buf.history := by
  induction l with
  | nil => rfl
  | cons a t ih => rw [List.foldr_cons, revert_view_history, ih]

theorem maybe_next_action_group_nexts_nil (v : view) :
    (v.maybe_next_action_group).buf.history.nexts = [] := by
  unfold view.maybe_next_action_group
  dsimp only
  cases h : v.buf.history.nexts <;> simp [h]

theorem action_insert_nexts_nil (v : view) (c : cursor_location) (data : List Byte) :
    (v.action_insert c data).buf.history.nexts = [] := by
  unfold view.action_insert history_zipper.append
  dsimp only
  rw [show ∀ w : view, ∀ a : action, (a.apply_view w).buf.history = w.buf.history
        from fun w a => apply_view_history a w]
  exact maybe_next_action_group_nexts_nil v

theorem action_delete_nexts_nil (v : view) (c : cursor_location) (n : Int) :
    (v.action_delete c n).buf.history.nexts = [] := by
  unfold view.action_delete history_zipper.append
  dsimp only
  rw [show ∀ w : view, ∀ a : action, (a.apply_view w).buf.history = w.buf.history
        from fun w a => apply_view_history a w]
  exact maybe_next_action_group_nexts_nil v

theorem redo_of_nexts_nil (v : view) (h : v.buf.history.nexts = []) : v.redo = v := by
  unfold view.redo
  rw [h]

/-- C10: recording a new edit through `action_insert` or `action_delete`
while the history pointer has a successor group advances into that
successor, clears its actions and severs its next pointer; hence after
every recorded edit the current group has no successor (all previously
redoable groups are dropped from the history) and an immediate `redo`
is a no-op. -/
theorem C10_record_severs_redo :
    (∀ (v : view) (g : action_group) (gs : List action_group),
        v.buf.history.nexts = g :: gs →
        (v.maybe_next_action_group).buf.history =
          ⟨v.buf.history.cur :: v.buf.history.prevs,
           { g with actions := [], before := v.cursor }, []⟩)
    ∧ (∀ (v : view) (c : cursor_location) (data : List Byte),
        (v.action_insert c data).buf.history.nexts = []
        ∧ (v.action_insert c data).redo = v.action_insert c data)
    ∧ (∀ (v : view) (c : cursor_location) (n : Int),
        (v.action_delete c n).buf.history.nexts = []
        ∧ (v.action_delete c n).redo = v.action_delete c n) := by
  refine ⟨fun v g gs h => ?_, fun v c data => ?_, fun v c n => ?_⟩
  · unfold view.maybe_next_action_group
    dsimp only
    rw [h]
  · exact ⟨action_insert_nexts_nil v c data,
      redo_of_nexts_nil _ (action_insert_nexts_nil v c data)⟩
  · exact ⟨action_delete_nexts_nil v c n,
      redo_of_nexts_nil _ (action_delete_nexts_nil v c n)⟩

/-- Closed witness for C10: on a fresh view the history has the one
successor group created by `init_history`; `maybe_next_action_group`
advances into it, clears it and severs its next pointer. -/
theorem C10_record_severs_redo_witness :
    (scratch_view.maybe_next_action_group).buf.history =
      ⟨scratch_view.buf.history.cur :: scratch_view.buf.history.prevs,
       { empty_action_group with actions := [], before := scratch_view.cursor }, []⟩ :=
  C10_record_severs_redo.1 scratch_view empty_action_group [] rfl

/-- C2: `undo` is the identity when the history pointer is at the
sentinel (no predecessor group); otherwise it equals the spec composite
`undo_spec`: finalize the open group, revert every action of the current
group in reverse recording order, move the cursor to the group's
"before" snapshot and step the history pointer to the predecessor. -/
theorem C2_undo (v : view) :
    (v.buf.history.prevs = [] → v.undo = v) ∧ v.undo = v.undo_spec := by
  constructor
  · intro h
    unfold view.undo
    rw [h]
  · cases hp : v.buf.history.prevs with
    | nil =>
      unfold view.undo view.undo_spec
      rw [hp]
      simp
    | cons p ps =>
      have hfold : ∀ w : view,
          ((v.finalize_action_group).buf.history.cur.actions.reverse).foldl
              (fun vv a => a.revert_view vv) w =
            (v.finalize_action_group).buf.history.cur.actions.foldr
              (fun a vv => a.revert_view vv) w := by
        intro w
        rw [List.foldl_reverse]
      unfold view.undo view.undo_spec
      rw [hp]
      dsimp only
      rw [hfold]
      have hh : ((v.finalize_action_group).buf.history.cur.actions.foldr
          (fun a vv => a.revert_view vv) (v.finalize_action_group)).buf.history =
          (v.finalize_action_group).buf.history :=
        foldr_revert_history _ _
      rw [hh]
      have hmov : (((v.finalize_action_group).buf.history.cur.actions.foldr
            (fun a vv => a.revert_view vv)
            (v.finalize_action_group)).move_cursor_to
              (v.finalize_action_group).buf.history.cur.before).buf =
          ((v.finalize_action_group).buf.history.cur.actions.foldr
            (fun a vv => a.revert_view vv) (v.finalize_action_group)).buf :=
        move_cursor_to_buf _ _
      rw [hmov, hh]
      rw [finalize_action_group_prevs, hp]
      simp

/-- Closed witness for C2: on a fresh view the pointer is at the
sentinel, so `undo` changes nothing. -/
theorem C2_undo_witness :
    scratch_view.undo = scratch_view ∧ scratch_view.undo = scratch_view.undo_spec :=
  ⟨(C2_undo scratch_view).1 rfl, (C2_undo scratch_view).2⟩

/-- C3: `redo` is the identity when the current group has no successor,
or when the successor group has no recorded actions; otherwise it equals
the spec composite `redo_spec`: advance the pointer to the successor,
apply its actions in recorded order and move the cursor to the "after"
snapshot. -/
theorem C3_redo (v : view) :
    (v.buf.history.nexts = [] → v.redo = v)
    ∧ (∀ (g : action_group) (gs : List action_group),
        v.buf.history.nexts = g :: gs → g.actions = [] → v.redo = v)
    ∧ v.redo = v.redo_spec := by
  refine ⟨redo_of_nexts_nil v, fun g gs hp hg => ?_, ?_⟩
  · unfold view.redo
    rw [hp]
    simp [hg]
  · cases hp : v.buf.history.nexts with
    | nil =>
      unfold view.redo view.redo_spec
      rw [hp]
      simp
    | cons g gs =>
      unfold view.redo view.redo_spec
      rw [hp]
      dsimp only [List.isEmpty_cons, List.headD_cons, List.tail_cons]
      by_cases hg : g.actions = []
      · simp [hg]
      · have hlen : ¬(g.actions.length = 0) := by simpa using hg
        have hemp : g.actions.isEmpty = false := by simpa using hg
        rw [if_neg hlen, hemp]
        simp only [Bool.false_eq_true, if_false]
        set v1 : view := { v with buf := { v.buf with history :=
            ⟨v.buf.history.cur :: v.buf.history.prevs, g, gs⟩ } } with hv1
        have hcur : v1.buf.history.cur = g := rfl
        have hfold : (g.actions.foldl (fun vv a => a.apply_view vv) v1).buf.history =
            v1.buf.history := foldl_apply_history _ _
        rw [hfold, hcur]

/-- Closed witness for C3: on a fresh view the successor group exists
but holds no recorded actions, so `redo` changes nothing. -/
theorem C3_redo_witness :
    scratch_view.redo = scratch_view ∧ scratch_view.redo = scratch_view.redo_spec :=
  ⟨(C3_redo scratch_view).2.1 empty_action_group [] rfl rfl, (C3_redo scratch_view).2.2⟩

set_option maxRecDepth 10000 in
/-- C4: a command dispatched through `on_vcommand` whose class differs
from the previous command's class finalizes the open undo group (after
recording the new class) before its body executes; consequently two
consecutive `insert_rune` commands record into one undo group (both
edits revert in a single undo step, which also returns the pointer to
the sentinel), while a movement command between two insertions yields
two groups (two undo steps are needed to restore the empty buffer). -/
theorem C4_command_class_grouping :
    (∀ (v : view) (cmd : vcommand) (arg : Nat),
        cmd.cls ≠ v.last_vcommand_class →
        v.on_vcommand cmd arg =
          (({ v with last_vcommand_class := cmd.cls
             } : view).finalize_action_group).dispatch_vcommand cmd arg)
    ∧ (scenario_two_inserts.buf.lines = [[97, 98]]
       ∧ scenario_two_inserts.buf.history.cur.actions.length = 2
       ∧ scenario_two_inserts.undo.buf.lines = [[]]
       ∧ scenario_two_inserts.undo.buf.history.prevs = [])
    ∧ (scenario_insert_move_insert.buf.lines = [[98, 97]]
       ∧ scenario_insert_move_insert.undo.buf.lines = [[97]]
       ∧ scenario_insert_move_insert.undo.undo.buf.lines = [[]]
       ∧ scenario_insert_move_insert.undo.undo.buf.history.prevs = []) := by
  refine ⟨fun v cmd arg h => ?_, ?_, ?_⟩
  · unfold view.on_vcommand
    dsimp only
    rw [if_pos h]
  · exact ⟨by decide, by decide, by decide, by decide⟩
  · exact ⟨by decide, by decide, by decide, by decide⟩

/-- Closed witness for C4: inserting into a freshly activated view is a
class change (insertion vs none), so the open group is finalized first. -/
theorem C4_command_class_grouping_witness :
    scratch_view.on_vcommand .insert_rune 97 =
      (({ scratch_view with last_vcommand_class := vcommand.insert_rune.cls
         } : view).finalize_action_group).dispatch_vcommand .insert_rune 97 :=
  C4_command_class_grouping.1 scratch_view .insert_rune 97 (by decide)

--------------------------------------------------------------------------
-- Theorems: multi-view notification
--------------------------------------------------------------------------

theorem spliceTail_length (post : List Byte) (l : List (List Byte)) (h : l ≠ []) :
    (spliceTail post l).length = l.length := by
  induction l with
  | nil => exact absurd rfl h
  | cons s ss ih =>
    cases ss with
    | nil => rfl
    | cons t ts =>
      have : spliceTail post (s :: t :: ts) = s :: spliceTail post (t :: ts) := rfl
      rw [this, List.length_cons, List.length_cons, ih (by simp)]

theorem spliceSegs_length (pre post : List Byte) (l : List (List Byte)) (h : l ≠ []) :
    (spliceSegs pre post l).length = l.length := by
  cases l with
  | nil => exact absurd rfl h
  | cons s ss =>
    cases ss with
    | nil => rfl
    | cons t ts =>
      have : spliceSegs pre post (s :: t :: ts) = (pre ++ s) :: spliceTail post (t :: ts) := rfl
      rw [this, List.length_cons, List.length_cons, spliceTail_length post (t :: ts) (by simp)]

theorem splitLines_length (s : List Byte) :
    (splitLines s).length = s.count 10 + 1 := by
  induction s with
  | nil => simp [splitLines]
  | cons b rest ih =>
    simp only [splitLines]
    split
    · rename_i hb
      subst hb
      simp [List.count_cons, ih]
    · rename_i hb
      cases h : splitLines rest with
      | nil => exact absurd h (splitLines_ne_nil rest)
      | cons l ls =>
        rw [h] at ih
        simp only [List.length_cons] at ih
        simp [List.count_cons, hb, ih]

theorem buffer_insert_drop (b : buffer) (c : cursor_location) (data : List Byte)
    (T : Nat) (hc1 : 1 ≤ c.line_num) (hcT : (c.line_num - 1).toNat + 1 ≤ T)
    (hlen : c.line_num ≤ b.lines_n) :
    (buffer_insert b c data).lines.drop (T + data.count 10) = b.lines.drop T := by
  unfold buffer_insert
  dsimp only
  set li := (c.line_num - 1).toNat with hli
  have hlib : li < b.lines.length := by
    unfold buffer.lines_n at hlen
    omega
  have htake : (b.lines.take li).length = li := by
    rw [List.length_take]
    omega
  have hmid : (spliceSegs ((b.lines.getD li []).take c.boffset.toNat)
      ((b.lines.getD li []).drop c.boffset.toNat) (splitLines data)).length =
      data.count 10 + 1 := by
    rw [spliceSegs_length _ _ _ (splitLines_ne_nil data), splitLines_length]
  rw [List.append_assoc, List.drop_append_eq_append_drop]
  have h1 : T + data.count 10 - (b.lines.take li).length =
      (T - li) + data.count 10 := by
    rw [htake]; omega
  have h2 : T + data.count 10 ≥ (b.lines.take li).length := by
    rw [htake]; omega
  rw [List.drop_eq_nil_of_le (by rw [htake]; omega), h1]
  rw [List.nil_append, List.drop_append_eq_append_drop]
  rw [List.drop_eq_nil_of_le (by rw [hmid]; omega)]
  rw [List.nil_append, hmid, List.drop_drop]
  have h3 : li + 1 + (T - li + data.count 10 - (data.count 10 + 1)) = T := by omega
  rw [h3]

/-- C5: when another view's insert action carrying `N ≥ 1` line
separators lands strictly above this view's top line, `on_insert` adds
`N` to the top-line number and to the cursor line number, sets only the
status dirty bit, and leaves the cursor offsets, the horizontal pan and
the visible content (the same slice of the pre-edit buffer `b`)
unchanged. -/
theorem C5_insert_above_top (b : buffer) (v : view) (a : action)
    (hwhat : a.what = .insert)
    (hlines : a.lines = ((a.data.count 10 : Nat) : Int))
    (hpos : 0 < a.lines)
    (habove : a.cursor.line_num < v.top_line_num)
    (hL1 : 1 ≤ a.cursor.line_num)
    (hLn : a.cursor.line_num ≤ b.lines_n)
    (hh : 0 ≤ v.height)
    (htop : 1 ≤ v.top_line_num)
    (hbuf : v.buf = a.apply_buffer b) :
    (v.on_insert a).top_line_num = v.top_line_num + a.lines
    ∧ (v.on_insert a).cursor.line_num = v.cursor.line_num + a.lines
    ∧ (v.on_insert a).cursor.boffset = v.cursor.boffset
    ∧ (v.on_insert a).cursor_coffset = v.cursor_coffset
    ∧ (v.on_insert a).cursor_voffset = v.cursor_voffset
    ∧ (v.on_insert a).line_voffset = v.line_voffset
    ∧ (v.on_insert a).dirty = (⟨v.dirty.contents, true⟩ : dirty_flag)
    ∧ (v.on_insert a).visible_lines =
        (b.lines.drop (v.top_line_num - 1).toNat).take v.height.toNat := by
  have hht : (({ v with
      top_line_num := v.top_line_num + a.lines,
      dirty := v.dirty.or_status } : view)).height = v.height := rfl
  have key : v.on_insert a =
      { v with
        top_line_num := v.top_line_num + a.lines,
        cursor := { v.cursor with line_num := v.cursor.line_num + a.lines },
        dirty := (⟨v.dirty.contents, true⟩ : dirty_flag) } := by
    unfold view.on_insert view.on_insert_adjust_top_line
    dsimp only
    have hA : a.cursor.line_num < v.top_line_num ∧ 0 < a.lines := ⟨habove, hpos⟩
    rw [if_pos hA, hht]
    dsimp only
    have hc1 : ¬(v.top_line_num + a.lines + v.height ≤ a.cursor.line_num) := by omega
    have hc2 : a.cursor.line_num < v.top_line_num + a.lines := by omega
    rw [if_neg hc1, if_pos hc2, if_pos hpos]
    simp [dirty_flag.or_status]
  refine ⟨by rw [key], by rw [key], by rw [key], by rw [key], by rw [key],
    by rw [key], by rw [key], ?_⟩
  rw [key]
  unfold view.visible_lines
  dsimp only
  have hhh : (({ v with
      top_line_num := v.top_line_num + a.lines,
      cursor := { v.cursor with line_num := v.cursor.line_num + a.lines },
      dirty := (⟨v.dirty.contents, true⟩ : dirty_flag) } : view)).height =
      v.height := rfl
  rw [hhh, hbuf]
  have happ : a.apply_buffer b = buffer_insert b a.cursor a.data := by
    unfold action.apply_buffer
    rw [hwhat]
  rw [happ]
  have hT : (v.top_line_num + a.lines - 1).toNat =
      (v.top_line_num - 1).toNat + a.data.count 10 := by omega
  rw [hT, buffer_insert_drop b a.cursor a.data _ hL1 (by omega) hLn]

/-- Closed witness for C5: a two-line insert through one view, above the
other view's top line, in a five-line buffer. -/
theorem C5_insert_above_top_witness :
    ((⟨⟨3, 2⟩, 3, 2, 2, 0, 2,
        ({ lines := [[104], [105, 97], [98], [99], [100]], history := init_history,
           mark := none } : buffer),
        80, 22, false, ⟨false, false⟩, .none, none⟩ : view).on_insert
          ⟨.insert, [104, 10, 105], ⟨1, 0⟩, 1⟩).top_line_num = 3 + 1 := by
  have h := C5_insert_above_top
    ({ lines := [[97], [98], [99], [100]], history := init_history, mark := none } : buffer)
    (⟨⟨3, 2⟩, 3, 2, 2, 0, 2,
      ({ lines := [[104], [105, 97], [98], [99], [100]], history := init_history,
         mark := none } : buffer),
      80, 22, false, ⟨false, false⟩, .none, none⟩ : view)
    ⟨.insert, [104, 10, 105], ⟨1, 0⟩, 1⟩
    rfl (by decide) (by decide) (by decide) (by decide) (by decide) (by decide)
    (by decide) (by decide)
  exact h.1

/-- C6: when another view's delete action removed a line range that
contains this view's top line (the action anchor lies above the top
line and the unlinked lines `anchor+1 .. anchor+N` straddle it), the
top-line adjustment of `on_delete` repoints the top line to the line
following the delete's anchor line — or to the anchor line itself when
it has no successor — and sets both dirty bits; the full `on_delete`
also leaves both dirty bits set. -/
theorem C6_delete_of_top_line (v : view) (a : action)
    (hwhat : a.what = .delete)
    (hpos : 0 < a.lines)
    (hr1 : a.cursor.line_num + 1 ≤ v.top_line_num)
    (hr2 : v.top_line_num ≤ a.cursor.line_num + a.lines)
    (hh : 0 ≤ v.height) :
    (v.on_delete_adjust_top_line a).top_line_num =
      (if a.cursor.line_num < v.buf.lines_n then a.cursor.line_num + 1
       else a.cursor.line_num)
    ∧ (v.on_delete_adjust_top_line a).dirty = dirty_everything
    ∧ (v.on_delete a).dirty = dirty_everything := by
  have habove : a.cursor.line_num < v.top_line_num := by omega
  have hkey : v.on_delete_adjust_top_line a =
      (if a.cursor.line_num < v.buf.lines_n then
        ({ v with top_line_num := a.cursor.line_num + 1, dirty := dirty_everything } : view)
       else
        ({ v with top_line_num := a.cursor.line_num, dirty := dirty_everything } : view)) := by
    unfold view.on_delete_adjust_top_line action.deleted_lines
    dsimp only
    rw [if_pos habove, if_neg (by omega), if_pos (by constructor <;> omega)]
  refine ⟨?_, ?_, ?_⟩
  · rw [hkey]
    split_ifs <;> rfl
  · rw [hkey]
    split_ifs <;> rfl
  · unfold view.on_delete
    dsimp only
    rw [hkey]
    by_cases hln : a.cursor.line_num < v.buf.lines_n
    · rw [if_pos hln]
      have hXh : (({ v with
          top_line_num := a.cursor.line_num + 1,
          dirty := dirty_everything } : view)).height = v.height := rfl
      rw [hXh]
      dsimp only
      by_cases hbelow : a.cursor.line_num + 1 + v.height ≤ a.cursor.line_num
      · rw [if_pos hbelow]
      · rw [if_neg hbelow, if_neg (by omega), if_neg (by unfold action.deleted_lines; dsimp only; omega)]
    · rw [if_neg hln]
      have hXh : (({ v with
          top_line_num := a.cursor.line_num,
          dirty := dirty_everything } : view)).height = v.height := rfl
      rw [hXh]
      dsimp only
      by_cases hbelow : a.cursor.line_num + v.height ≤ a.cursor.line_num
      · rw [if_pos hbelow]
      · rw [if_neg hbelow, if_neg (by omega), if_neg (by unfold action.deleted_lines; dsimp only; omega)]

/-- Closed witness for C6: a delete anchored at line 1 removing lines 2
and 3 while this view's top line was line 3. -/
theorem C6_delete_of_top_line_witness :
    ((⟨⟨4, 0⟩, 3, 0, 0, 0, 0,
        ({ lines := [[97], [98]], history := init_history, mark := none } : buffer),
        80, 22, false, ⟨false, false⟩, .none, none⟩ : view).on_delete_adjust_top_line
          ⟨.delete, [104, 10, 105, 10], ⟨1, 0⟩, 2⟩).top_line_num =
      (if (1 : Int) < 2 then 1 + 1 else 1) := by
  have h := C6_delete_of_top_line
    (⟨⟨4, 0⟩, 3, 0, 0, 0, 0,
      ({ lines := [[97], [98]], history := init_history, mark := none } : buffer),
      80, 22, false, ⟨false, false⟩, .none, none⟩ : view)
    ⟨.delete, [104, 10, 105, 10], ⟨1, 0⟩, 2⟩
    rfl (by decide) (by decide) (by decide) (by decide)
  exact h.1

--------------------------------------------------------------------------
-- Theorems: boundary movement
--------------------------------------------------------------------------

theorem move_top_line_n_times_cursor (v : view) (n : Int) :
    (v.move_top_line_n_times n).cursor = v.cursor := by
  unfold view.move_top_line_n_times
  split_ifs <;> rfl

theorem adjust_top_line_cursor (v : view) :
    (v.adjust_top_line).cursor = v.cursor := by
  unfold view.adjust_top_line
  dsimp only
  split_ifs <;> simp [move_top_line_n_times_cursor]

theorem adjust_line_voffset_cursor (v : view) :
    (v.adjust_line_voffset).cursor = v.cursor := by
  unfold view.adjust_line_voffset
  dsimp only
  split_ifs <;> rfl

theorem move_cursor_to_cursor (v : view) (c : cursor_location) (h : 0 ≤ c.boffset) :
    (v.move_cursor_to c).cursor = c := by
  unfold view.move_cursor_to
  dsimp only
  split_ifs with h1 h2
  · exact absurd h1 (by omega)
  · exact absurd h1 (by omega)
  · rw [adjust_top_line_cursor, adjust_line_voffset_cursor]
  · rw [adjust_top_line_cursor, adjust_line_voffset_cursor]

theorem move_top_line_n_times_sr (v : view) (n : Int) :
    (v.move_top_line_n_times n).sr_status = v.sr_status := by
  unfold view.move_top_line_n_times
  split_ifs <;> rfl

theorem adjust_top_line_sr (v : view) :
    (v.adjust_top_line).sr_status = v.sr_status := by
  unfold view.adjust_top_line
  dsimp only
  split_ifs <;> simp [move_top_line_n_times_sr]

theorem adjust_line_voffset_sr (v : view) :
    (v.adjust_line_voffset).sr_status = v.sr_status := by
  unfold view.adjust_line_voffset
  dsimp only
  split_ifs <;> rfl

theorem move_cursor_to_sr (v : view) (c : cursor_location) :
    (v.move_cursor_to c).sr_status = v.sr_status := by
  unfold view.move_cursor_to
  dsimp only
  split_ifs <;> simp [adjust_top_line_sr, adjust_line_voffset_sr]

theorem move_one_word_forward_stay (b : buffer) (c : cursor_location)
    (h : (c.move_one_word_forward b).2 = false) :
    (c.move_one_word_forward b).1 = c := by
  unfold cursor_location.move_one_word_forward at h ⊢
  cases h1 : word_end_scan ((b.getLine c.line_num).drop c.boffset.toNat) c.boffset false with
  | some p => simp_all
  | none =>
    cases h2 : word_fwd_lines (b.lines.drop c.line_num.toNat) (c.line_num + 1) with
    | some q => simp_all
    | none => simp_all

/-- C9: a movement command attempted at a buffer boundary — forward at
the end of the last line, backward at the start of the first line, or
word-forward with no word end ahead — leaves the cursor and the buffer
unchanged and reports the boundary notice ("End of buffer" /
"Beginning of buffer") through the status reporter. -/
theorem C9_boundary_movement (v : view) (hbo : 0 ≤ v.cursor.boffset) :
    (v.cursor.last_line v.buf = true → v.cursor.eol v.buf = true →
        v.move_cursor_forward = v.set_status "End of buffer")
    ∧ (v.cursor.first_line = true → v.cursor.bol = true →
        v.move_cursor_backward = v.set_status "Beginning of buffer")
    ∧ ((v.cursor.move_one_word_forward v.buf).2 = false →
        (v.move_cursor_word_forward).cursor = v.cursor
        ∧ (v.move_cursor_word_forward).buf = v.buf
        ∧ (v.move_cursor_word_forward).sr_status = some "End of buffer") := by
  refine ⟨fun hl he => ?_, fun hf hb => ?_, fun hw => ?_⟩
  · unfold view.move_cursor_forward
    dsimp only
    rw [hl, he]
    rfl
  · unfold view.move_cursor_backward
    dsimp only
    rw [hf, hb]
    rfl
  · unfold view.move_cursor_word_forward
    dsimp only
    rw [hw, move_one_word_forward_stay v.buf v.cursor hw]
    refine ⟨?_, ?_, ?_⟩
    · simp only [Bool.not_false, if_pos]
      unfold view.set_status
      dsimp only
      rw [move_cursor_to_cursor v v.cursor hbo]
    · simp only [Bool.not_false, if_pos]
      unfold view.set_status
      dsimp only
      rw [move_cursor_to_buf]
    · simp only [Bool.not_false, if_pos]
      rfl

/-- Closed witness for C9: the fresh one-line empty buffer puts the
cursor simultaneously at every boundary. -/
theorem C9_boundary_movement_witness :
    scratch_view.move_cursor_forward = scratch_view.set_status "End of buffer"
    ∧ scratch_view.move_cursor_backward = scratch_view.set_status "Beginning of buffer"
    ∧ (scratch_view.move_cursor_word_forward).sr_status = some "End of buffer" :=
  ⟨(C9_boundary_movement scratch_view (by decide)).1 rfl rfl,
   (C9_boundary_movement scratch_view (by decide)).2.1 rfl rfl,
   ((C9_boundary_movement scratch_view (by decide)).2.2 (by decide)).2.2⟩

--------------------------------------------------------------------------
-- Theorems: vertical scroll invariant
--------------------------------------------------------------------------

theorem Int.tdiv_two_of_nonneg (a : Int) (h : 0 ≤ a) : Int.tdiv a 2 = a / 2 := by
  unfold Int.tdiv
  match a, h with
  | Int.ofNat n, _ => rfl

theorem vertical_threshold_bounds (v : view) (hh : 1 ≤ v.height) :
    0 ≤ v.vertical_threshold ∧ 2 * v.vertical_threshold + 1 ≤ v.height := by
  unfold view.vertical_threshold view_vertical_threshold
  dsimp only
  rw [Int.tdiv_two_of_nonneg (v.height - 1) (by omega)]
  split_ifs <;> omega

theorem adjust_top_line_margin (v : view)
    (hh : 1 ≤ v.height)
    (ht1 : 1 ≤ v.top_line_num) (htn : v.top_line_num ≤ v.buf.lines_n)
    (hc1 : 1 ≤ v.cursor.line_num) (hcn : v.cursor.line_num ≤ v.buf.lines_n) :
    (v.vertical_threshold ≤ v.cursor.line_num - (v.adjust_top_line).top_line_num
      ∧ v.cursor.line_num - (v.adjust_top_line).top_line_num
          < v.height - v.vertical_threshold)
    ∨ ((v.adjust_top_line).top_line_num = 1
        ∧ v.cursor.line_num - 1 < v.vertical_threshold) := by
  obtain ⟨hvt0, hvt2⟩ := vertical_threshold_bounds v hh
  unfold view.adjust_top_line
  dsimp only
  unfold view.move_top_line_n_times
  split_ifs <;> first | omega | (dsimp only; omega)

theorem adjust_line_voffset_top (v : view) :
    (v.adjust_line_voffset).top_line_num = v.top_line_num := by
  unfold view.adjust_line_voffset
  dsimp only
  split_ifs <;> rfl

theorem move_cursor_line_n_times_top (v : view) (n : Int) :
    (v.move_cursor_line_n_times n).top_line_num = v.top_line_num := by
  unfold view.move_cursor_line_n_times
  split_ifs <;> rfl

theorem move_cursor_line_n_times_line_pos (v : view) (n : Int) (hn : 0 < n) :
    (v.move_cursor_line_n_times n).cursor.line_num =
      min v.buf.lines_n (v.cursor.line_num + n) := by
  unfold view.move_cursor_line_n_times
  rw [if_neg (by omega), if_neg (by omega)]

theorem move_cursor_line_n_times_line_neg (v : view) (n : Int) (hn : n < 0) :
    (v.move_cursor_line_n_times n).cursor.line_num =
      max 1 (v.cursor.line_num + n) := by
  unfold view.move_cursor_line_n_times
  rw [if_neg (by omega), if_pos (by omega)]

set_option maxHeartbeats 1000000 in
theorem adjust_cursor_line_margin (v : view)
    (hh : 1 ≤ v.height)
    (ht1 : 1 ≤ v.top_line_num) (htn : v.top_line_num ≤ v.buf.lines_n)
    (hc1 : 1 ≤ v.cursor.line_num) (hcn : v.cursor.line_num ≤ v.buf.lines_n) :
    (v.adjust_cursor_line).top_line_num = v.top_line_num
    ∧ ((v.vertical_threshold ≤ (v.adjust_cursor_line).cursor.line_num - v.top_line_num
        ∧ (v.adjust_cursor_line).cursor.line_num - v.top_line_num
            < v.height - v.vertical_threshold)
      ∨ ((v.adjust_cursor_line).cursor.line_num = v.buf.lines_n
          ∧ v.buf.lines_n - v.top_line_num < v.vertical_threshold)) := by
  obtain ⟨hvt0, hvt2⟩ := vertical_threshold_bounds v hh
  unfold view.adjust_cursor_line
  dsimp only
  split_ifs
  all_goals try (exfalso; omega)
  all_goals refine ⟨?_, ?_⟩
  all_goals dsimp only
  all_goals try (rw [adjust_line_voffset_top]; dsimp only)
  all_goals try (rw [adjust_line_voffset_cursor]; dsimp only)
  all_goals try rw [move_cursor_line_n_times_top]
  all_goals try rw [move_cursor_line_n_times_line_pos _ _ (by omega)]
  all_goals try rw [move_cursor_line_n_times_line_neg _ _ (by omega)]
  all_goals omega

/-- C7: after `adjust_top_line` runs (following a cursor move), and after
`adjust_cursor_line` runs (following a top-line move), the cursor's row
offset from the top line lies in `[margin, usableHeight - margin)`
whenever the buffer boundaries allow (otherwise the view is pinned at
the buffer edge inside the margin); concretely with usable height 20 and
margin 5, a cursor within 4 rows of the top or bottom ends up at exactly
row 5, respectively row 20-5-1 = 14, from the new top line. -/
theorem C7_scroll_margin_invariant :
    (∀ v : view, 1 ≤ v.height → 1 ≤ v.top_line_num → v.top_line_num ≤ v.buf.lines_n →
        1 ≤ v.cursor.line_num → v.cursor.line_num ≤ v.buf.lines_n →
        ((v.vertical_threshold ≤ v.cursor.line_num - (v.adjust_top_line).top_line_num
          ∧ v.cursor.line_num - (v.adjust_top_line).top_line_num
              < v.height - v.vertical_threshold)
         ∨ ((v.adjust_top_line).top_line_num = 1
             ∧ v.cursor.line_num - 1 < v.vertical_threshold)))
    ∧ (∀ v : view, 1 ≤ v.height → 1 ≤ v.top_line_num → v.top_line_num ≤ v.buf.lines_n →
        1 ≤ v.cursor.line_num → v.cursor.line_num ≤ v.buf.lines_n →
        (v.adjust_cursor_line).top_line_num = v.top_line_num
        ∧ ((v.vertical_threshold
              ≤ (v.adjust_cursor_line).cursor.line_num - v.top_line_num
            ∧ (v.adjust_cursor_line).cursor.line_num - v.top_line_num
                < v.height - v.vertical_threshold)
          ∨ ((v.adjust_cursor_line).cursor.line_num = v.buf.lines_n
              ∧ v.buf.lines_n - v.top_line_num < v.vertical_threshold)))
    ∧ ((margin_view 68).height = 20
       ∧ (margin_view 68).vertical_threshold = 5
       ∧ (margin_view 68).cursor.line_num - (margin_view 68).top_line_num = 18
       ∧ (margin_view 68).cursor.line_num
           - ((margin_view 68).adjust_top_line).top_line_num = 20 - 5 - 1
       ∧ (margin_view 52).cursor.line_num - (margin_view 52).top_line_num = 2
       ∧ (margin_view 52).cursor.line_num
           - ((margin_view 52).adjust_top_line).top_line_num = 5) := by
  refine ⟨fun v a b c d e => adjust_top_line_margin v a b c d e,
          fun v a b c d e => adjust_cursor_line_margin v a b c d e,
          by decide, by decide, by decide, by decide, by decide, by decide⟩

/-- Closed witness for C7: the scroll-margin scenario view with its
cursor 18 rows below the top line satisfies all the hypotheses, and the
invariant holds for it after `adjust_top_line`. -/
theorem C7_scroll_margin_invariant_witness :
    ((margin_view 68).vertical_threshold
        ≤ (margin_view 68).cursor.line_num
            - ((margin_view 68).adjust_top_line).top_line_num
      ∧ (margin_view 68).cursor.line_num
            - ((margin_view 68).adjust_top_line).top_line_num
          < (margin_view 68).height - (margin_view 68).vertical_threshold)
    ∨ (((margin_view 68).adjust_top_line).top_line_num = 1
        ∧ (margin_view 68).cursor.line_num - 1 < (margin_view 68).vertical_threshold) :=
  C7_scroll_margin_invariant.1 (margin_view 68) (by decide) (by decide) (by decide)
    (by decide) (by decide)

--------------------------------------------------------------------------
-- Theorems: the location model (find_closest_offsets)
--------------------------------------------------------------------------

theorem rune_vodif_pos (r : Nat) (vo : Int) : 1 ≤ rune_vodif r vo := by
  unfold rune_vodif tabstop_length
  split
  · have h1 : 0 ≤ vo % 8 := Int.emod_nonneg vo (by omega)
    have h2 : vo % 8 < 8 := Int.emod_lt_of_pos vo (by omega)
    omega
  · omega

theorem visual_sum_ge (l : List (Nat × Nat)) : ∀ vo : Int, vo ≤ visual_sum vo l := by
  induction l with
  | nil => intro vo; exact le_refl vo
  | cons p t ih =>
    intro vo
    have h1 := rune_vodif_pos p.1 vo
    calc vo ≤ vo + rune_vodif p.1 vo := by omega
      _ ≤ visual_sum (vo + rune_vodif p.1 vo) t := ih _
      _ = visual_sum vo (p :: t) := rfl

theorem runeSeq_loop_fuel (fuel1 : Nat) : ∀ (fuel2 : Nat) (l : List Byte),
    l.length ≤ fuel1 → l.length ≤ fuel2 →
    runeSeq_loop fuel1 l = runeSeq_loop fuel2 l := by
  induction fuel1 with
  | zero =>
    intro fuel2 l h1 h2
    have : l = [] := by
      cases l with
      | nil => rfl
      | cons b t => simp at h1
    subst this
    cases fuel2 <;> rfl
  | succ f1 ih =>
    intro fuel2 l h1 h2
    cases l with
    | nil => cases fuel2 <;> rfl
    | cons b t =>
      cases fuel2 with
      | zero => simp at h2
      | succ f2 =>
        show (utf8DecodeRune (b :: t)) :: runeSeq_loop f1 ((b :: t).drop (utf8DecodeRune (b :: t)).2) =
          (utf8DecodeRune (b :: t)) :: runeSeq_loop f2 ((b :: t).drop (utf8DecodeRune (b :: t)).2)
        have hp := utf8DecodeRune_len_pos (b :: t) (by simp)
        have hd : ((b :: t).drop (utf8DecodeRune (b :: t)).2).length ≤ f1 := by
          simp only [List.length_drop, List.length_cons] at h1 ⊢
          omega
        have hd2 : ((b :: t).drop (utf8DecodeRune (b :: t)).2).length ≤ f2 := by
          simp only [List.length_drop, List.length_cons] at h2 ⊢
          omega
        rw [ih f2 _ hd hd2]

theorem runeSeq_cons (b : Byte) (t : List Byte) :
    runeSeq (b :: t) =
      utf8DecodeRune (b :: t) :: runeSeq ((b :: t).drop (utf8DecodeRune (b :: t)).2) := by
  show runeSeq_loop (t.length + 1) (b :: t) = _
  have h1 := utf8DecodeRune_len_pos (b :: t) (by simp)
  show (utf8DecodeRune (b :: t)) :: runeSeq_loop t.length ((b :: t).drop (utf8DecodeRune (b :: t)).2) = _
  rw [runeSeq_loop_fuel t.length ((b :: t).drop (utf8DecodeRune (b :: t)).2).length _
    (by simp only [List.length_drop]; simp; omega) (le_refl _)]
  rfl

theorem byte_sum_cons (p : Nat × Nat) (l : List (Nat × Nat)) :
    byte_sum (p :: l) = (p.2 : Int) + byte_sum l := by
  unfold byte_sum
  push_cast
  simp

theorem fco_loop_spec (fuel : Nat) : ∀ (data : List Byte) (bo co vo voffset : Int),
    data.length ≤ fuel → 0 ≤ vo → vo ≤ voffset →
    ∃ k : Nat, k ≤ (runeSeq data).length
      ∧ fco_loop fuel data bo co vo voffset =
          (bo + byte_sum ((runeSeq data).take k), co + (k : Int),
           visual_sum vo ((runeSeq data).take k))
      ∧ visual_sum vo ((runeSeq data).take k) ≤ voffset
      ∧ ∀ j : Nat, j ≤ (runeSeq data).length →
          visual_sum vo ((runeSeq data).take j) ≤ voffset → j ≤ k := by
  induction fuel with
  | zero =>
    intro data bo co vo voffset hlen hvo hvof
    have hnil : data = [] := by
      cases data with
      | nil => rfl
      | cons b t => simp at hlen
    subst hnil
    refine ⟨0, by simp, ?_, ?_, ?_⟩
    · show (bo, co, vo) = _
      simp [runeSeq, runeSeq_loop, byte_sum, visual_sum]
    · simpa [runeSeq, runeSeq_loop, visual_sum] using hvof
    · intro j hj _
      simp only [runeSeq, runeSeq_loop, List.length_nil] at hj
      omega
  | succ f ih =>
    intro data bo co vo voffset hlen hvo hvof
    cases data with
    | nil =>
      refine ⟨0, by simp, ?_, ?_, ?_⟩
      · show (bo, co, vo) = _
        simp [runeSeq, runeSeq_loop, byte_sum, visual_sum]
      · simpa [runeSeq, runeSeq_loop, visual_sum] using hvof
      · intro j hj _
        simp only [runeSeq, runeSeq_loop, List.length_nil] at hj
        omega
    | cons b t =>
      have hvodif := rune_vodif_pos (utf8DecodeRune (b :: t)).1 vo
      have hplen := utf8DecodeRune_len_pos (b :: t) (by simp)
      have hunfold : fco_loop (f + 1) (b :: t) bo co vo voffset =
          (if vo + rune_vodif (utf8DecodeRune (b :: t)).1 vo > voffset then (bo, co, vo)
           else fco_loop f ((b :: t).drop (utf8DecodeRune (b :: t)).2)
                  (bo + ((utf8DecodeRune (b :: t)).2 : Int)) (co + 1)
                  (vo + rune_vodif (utf8DecodeRune (b :: t)).1 vo) voffset) := rfl
      by_cases hstop : vo + rune_vodif (utf8DecodeRune (b :: t)).1 vo > voffset
      · refine ⟨0, by simp, ?_, ?_, ?_⟩
        · rw [hunfold, if_pos hstop]
          simp [byte_sum, visual_sum]
        · simpa [visual_sum] using hvof
        · intro j hj hvis
          rw [runeSeq_cons] at hj hvis
          cases j with
          | zero => omega
          | succ j' =>
            rw [List.take_succ_cons] at hvis
            have hge := visual_sum_ge
              ((runeSeq ((b :: t).drop (utf8DecodeRune (b :: t)).2)).take j')
              (vo + rune_vodif (utf8DecodeRune (b :: t)).1 vo)
            have : visual_sum (vo + rune_vodif (utf8DecodeRune (b :: t)).1 vo)
                ((runeSeq ((b :: t).drop (utf8DecodeRune (b :: t)).2)).take j') ≤ voffset := hvis
            omega
      · have hlen' : ((b :: t).drop (utf8DecodeRune (b :: t)).2).length ≤ f := by
          simp only [List.length_drop, List.length_cons] at hlen ⊢
          omega
        obtain ⟨k', hk'le, hk'eq, hk'vis, hk'max⟩ :=
          ih ((b :: t).drop (utf8DecodeRune (b :: t)).2)
            (bo + ((utf8DecodeRune (b :: t)).2 : Int)) (co + 1)
            (vo + rune_vodif (utf8DecodeRune (b :: t)).1 vo) voffset hlen'
            (by omega) (by omega)
        refine ⟨k' + 1, ?_, ?_, ?_, ?_⟩
        · rw [runeSeq_cons]
          simp only [List.length_cons]
          omega
        · rw [hunfold, if_neg hstop, hk'eq, runeSeq_cons, List.take_succ_cons,
            byte_sum_cons]
          refine Prod.ext ?_ (Prod.ext ?_ ?_)
          · dsimp only
            ring
          · dsimp only
            push_cast
            ring
          · rfl
        · rw [runeSeq_cons, List.take_succ_cons]
          exact hk'vis
        · intro j hj hvis
          rw [runeSeq_cons] at hj hvis
          cases j with
          | zero => omega
          | succ j' =>
            rw [List.take_succ_cons] at hvis
            simp only [List.length_cons] at hj
            have := hk'max j' (by omega) hvis
            omega

/-- C8: for every line and every nonnegative target visual column,
`find_closest_offsets` returns the (byte offset, character offset,
visual offset) triple of the closest rune boundary whose visual offset
does not exceed the target — the character offset is the largest rune
count whose accumulated visual width (tabs advancing to the next
tab-stop multiple, other runes costing one cell) stays within the
target, the byte offset is the byte length of those runes and the
visual offset their accumulated width; concretely, with tab-stop width
8 on the line "a\tb", target visual column 5 yields byte offset 1,
character offset 1, visual offset 1. -/
theorem C8_find_closest_offsets (data : List Byte) (voffset : Int) (hv : 0 ≤ voffset) :
    (∃ k : Nat, k ≤ (runeSeq data).length
      ∧ find_closest_offsets data voffset =
          (byte_sum ((runeSeq data).take k), (k : Int),
           visual_sum 0 ((runeSeq data).take k))
      ∧ visual_sum 0 ((runeSeq data).take k) ≤ voffset
      ∧ ∀ j : Nat, j ≤ (runeSeq data).length →
          visual_sum 0 ((runeSeq data).take j) ≤ voffset → j ≤ k)
    ∧ find_closest_offsets [97, 9, 98] 5 = (1, 1, 1) := by
  constructor
  · obtain ⟨k, h1, h2, h3, h4⟩ :=
      fco_loop_spec data.length data 0 0 0 voffset (le_refl _) (le_refl 0) hv
    refine ⟨k, h1, ?_, h3, h4⟩
    unfold find_closest_offsets
    rw [h2]
    simp
  · decide

/-- Closed witness for C8: the spec's own tab-arithmetic instance. -/
theorem C8_find_closest_offsets_witness :
    find_closest_offsets [97, 9, 98] 5 = (1, 1, 1) :=
  (C8_find_closest_offsets [97, 9, 98] 5 (by decide)).2
